import Mathlib

/-!
Verification development for the Delphi build server sources.

The Python modules `src/output_parser.py`, `src/compiler.py`,
`src/buildlog_parser.py`, `src/config_extender.py` and `src/path_utils.py`
are shallowly embedded below: pure functions become Lean functions on
`String` / `List Char`, mutable state becomes explicit state passing, and
the regular expressions are translated operationally (Python `re` module:
backtracking engine, `.` does not match a newline, `$` matches at the end
of the string or just before a single trailing newline, `\s` / `\d`
modelled on their ASCII subsets, `str.lower` modelled on ASCII case
mapping, as all patterns and inputs of interest are ASCII).
`pathlib.Path` values are modelled by their underlying strings (the
constructor's separator normalisation is not modelled; the comparisons in
the code normalise separators themselves).
-/

namespace DelphiBuild

/-! ## Basic string machinery shared by the embeddings -/

/-- ASCII subset of Python's `\s` / `str.strip` whitespace. -/
def isPyWS (c : Char) : Bool :=
  c = ' ' || c = '\t' || c = '\n' || c = '\r' || c = '\x0b' || c = '\x0c'

/-- ASCII decimal digit (Python `\d` on ASCII input). -/
def isPyDigit (c : Char) : Bool := '0' ≤ c && c ≤ '9'

/-- ASCII letter. -/
def isAsciiLetter (c : Char) : Bool :=
  ('a' ≤ c && c ≤ 'z') || ('A' ≤ c && c ≤ 'Z')

/-- Python `str.lower()` on a character list (ASCII case mapping). -/
def lowerL (l : List Char) : List Char := l.map Char.toLower

/-- Python `str.upper()` on a character list (ASCII case mapping). -/
def upperL (l : List Char) : List Char := l.map Char.toUpper

/-- Python `str.lower()`. -/
def lowerStr (s : String) : String := ⟨lowerL s.data⟩

/-- Python `str.upper()`. -/
def upperStr (s : String) : String := ⟨upperL s.data⟩

/-- Exact (case sensitive) list prefix test. -/
def isPrefixL : List Char → List Char → Bool
  | [], _ => true
  | _ :: _, [] => false
  | p :: ps, c :: cs => p = c && isPrefixL ps cs

/-- Case-insensitive prefix match; on success returns the consumed input
slice (original case, as a regex capture group would) and the remainder. -/
def ciPrefixSplit : List Char → List Char → Option (List Char × List Char)
  | [], cs => some ([], cs)
  | _ :: _, [] => none
  | w :: ws, c :: cs =>
    if c.toLower = w.toLower then
      match ciPrefixSplit ws cs with
      | some (s, r) => some (c :: s, r)
      | none => none
    else none

/-- Python's `sub in s` substring test, on character lists. -/
def containsSubL (sub : List Char) : List Char → Bool
  | [] => isPrefixL sub []
  | c :: cs => isPrefixL sub (c :: cs) || containsSubL sub cs

/-- Python's `sub in s` substring test. -/
def containsSub (s sub : String) : Bool := containsSubL sub.data s.data

/-- Drop leading Python whitespace (a greedy `\s*`). -/
def dropWS (cs : List Char) : List Char := cs.dropWhile isPyWS

/-- Python `str.strip()`. -/
def pyStrip (cs : List Char) : List Char :=
  ((cs.dropWhile isPyWS).reverse.dropWhile isPyWS).reverse

/-- Python `s.split("\n")`. -/
def splitNl : List Char → List (List Char)
  | [] => [[]]
  | c :: cs =>
    if c = '\n' then [] :: splitNl cs
    else
      match splitNl cs with
      | l :: ls => (c :: l) :: ls
      | [] => [[c]]

/-- Numeric value of a run of decimal digits (Python `int(...)`). -/
def digitsToNat (ds : List Char) : Nat :=
  ds.foldl (fun acc c => acc * 10 + (c.toNat - '0'.toNat)) 0

/-- Python `s.split(sep)` for a single-character separator. -/
def splitOnCh (sep : Char) : List Char → List (List Char)
  | [] => [[]]
  | c :: cs =>
    if c = sep then [] :: splitOnCh sep cs
    else
      match splitOnCh sep cs with
      | l :: ls => (c :: l) :: ls
      | [] => [[c]]

/-- Python `s.split()`: split on whitespace runs, dropping empty pieces. -/
def pySplitWS (cs : List Char) : List (List Char) :=
  match cs with
  | [] => []
  | c :: rest =>
    if isPyWS c then pySplitWS rest
    else
      match pySplitWS rest with
      | [] => [[c]]
      | l :: ls =>
        match rest with
        | [] => [[c]]
        | r :: _ => if isPyWS r then [c] :: l :: ls else (c :: l) :: ls

/-- Join character-list pieces with a separator character. -/
def joinWithCh (sep : Char) : List (List Char) → List Char
  | [] => []
  | [l] => l
  | l :: ls => l ++ sep :: joinWithCh sep ls

/-- Join strings with a separator string (Python `sep.join(...)`). -/
def joinWith (sep : String) : List String → String
  | [] => ""
  | [s] => s
  | s :: ss => s ++ sep ++ joinWith sep ss

/-- Python `s.replace(pat, repl)` (left-to-right, non-overlapping), via
structural fuel; `replaceSub` instantiates the fuel adequately. -/
def replaceSubGo (pat repl : List Char) : Nat → List Char → List Char
  | 0, l => l
  | _ + 1, [] => []
  | fuel + 1, c :: rest =>
    if isPrefixL pat (c :: rest) && !pat.isEmpty then
      repl ++ replaceSubGo pat repl fuel ((c :: rest).drop pat.length)
    else
      c :: replaceSubGo pat repl fuel rest

/-- Python `s.replace(pat, repl)` for nonempty `pat`. -/
def replaceSub (pat repl l : List Char) : List Char :=
  replaceSubGo pat repl l.length l

/-- Python `s.replace(a, b)` for single characters. -/
def replaceCh (a b : Char) (l : List Char) : List Char :=
  l.map fun c => if c = a then b else c

/-! ## `src/output_parser.py`: OutputParser

The two message regexes are embedded operationally.  `MESSAGE_PATTERN` is
`^(.+?)\((\d+)(?:,(\d+))?\)\s*(Error|Warning|Hint|Fatal|Fehler|Warnung|Hinweis|Schwerwiegend)(?:\s*:)?\s*([EWHFewh]\d+)?\s*:?\s*(.+)$`
with `re.IGNORECASE`; `SIMPLE_MESSAGE_PATTERN` drops the location part.
The eight severity words are pairwise prefix-incomparable, so the
alternation is deterministic.  The lazy `(.+?)` is realised by trying
split points from the shortest prefix up, and the optional/greedy pieces
of the tail are realised with Python's backtracking preference order. -/

namespace OutputParser

/-- A message matched by either compiler-output pattern. -/
structure ParsedMsg where
  filePath : String
  lineNum : Nat
  colNum : Nat
  severity : String
  errorCode : Option String
  message : String
  deriving Repr, DecidableEq

/-- The severity alternation of both regexes, in source order. -/
def severityWords : List (List Char) :=
  ["Error".data, "Warning".data, "Hint".data, "Fatal".data,
   "Fehler".data, "Warnung".data, "Hinweis".data, "Schwerwiegend".data]

/-- Try the severity alternatives in order (case-insensitively). -/
def tryWords : List (List Char) → List Char → Option (List Char × List Char)
  | [], _ => none
  | w :: ws, cs =>
    match ciPrefixSplit w cs with
    | some r => some r
    | none => tryWords ws cs

/-- Match the severity alternation at the head of the input. -/
def matchSeverity (cs : List Char) : Option (List Char × List Char) :=
  tryWords severityWords cs

/-- `[EWHFewh]` under `re.IGNORECASE`: any case variant of E, W, H, F. -/
def codeClass (c : Char) : Bool :=
  c.toLower = 'e' || c.toLower = 'w' || c.toLower = 'h' || c.toLower = 'f'

/-- Result of `\s*:?\s*(.+)$` with Python backtracking: the final message
capture, or `none` when the remaining input is empty. -/
def msgTail (u : List Char) : Option (List Char) :=
  match u with
  | [] => none
  | _ :: _ =>
    match dropWS u with
    | [] =>
      -- input is all whitespace: `\s*` backs off one char for `(.+)`
      match u.getLast? with
      | some c => some [c]
      | none => none
    | ':' :: v =>
      match v with
      | [] => some [':']  -- `:?` backs off, `(.+)` eats the colon
      | _ :: _ =>
        match dropWS v with
        | [] =>
          match v.getLast? with
          | some c => some [c]
          | none => none
        | w => some w
    | w => some w

/-- `([EWHFewh]\d+)` at the given position followed by `\s*:?\s*(.+)$`,
including the backtracking of the greedy `\d+` when the code run would
otherwise swallow the whole remaining input. -/
def tryCodeAndRest (u1 : List Char) : Option (Option (List Char) × List Char) :=
  match u1 with
  | [] => none
  | c :: rest =>
    if codeClass c then
      let ds := rest.takeWhile isPyDigit
      match ds with
      | [] => none
      | _ :: _ =>
        let rem := rest.drop ds.length
        match rem with
        | [] =>
          -- `\d+` gives one digit back so `(.+)` is nonempty
          match ds.reverse with
          | [] => none
          | d :: _ =>
            if ds.length ≥ 2 then some (some (c :: ds.dropLast), [d]) else none
        | _ :: _ =>
          match msgTail rem with
          | some m => some (some (c :: ds), m)
          | none => none
    else none

/-- `\s*([EWHFewh]\d+)?\s*:?\s*(.+)$`: optional code first (greedy
preference), else no code with the combined whitespace handling. -/
def matchT2 (u : List Char) : Option (Option (List Char) × List Char) :=
  match tryCodeAndRest (dropWS u) with
  | some r => some r
  | none =>
    match msgTail u with
    | some m => some (none, m)
    | none => none

/-- The common tail of both message regexes after the severity word.
`(?:\s*:)?\s*([EWHFewh]\d+)?\s*:?\s*(.+)$` (full pattern) and
`\s*:?\s*([EWHFewh]\d+)?\s*:?\s*(.+)$` (simple pattern) denote the same
match function: taking the optional colon hands the rest to `matchT2`,
and when that fails (nothing after the colon) backtracking falls back to
not taking the colon. -/
def matchSevTail (u : List Char) : Option (Option (List Char) × List Char) :=
  match dropWS u with
  | ':' :: v =>
    match matchT2 v with
    | some r => some r
    | none => matchT2 u
  | _ => matchT2 u

/-- `\((\d+)(?:,(\d+))?\)` at the head of the input; returns line number,
column number (0 when the group is absent, as in `_parse_line`) and the
remainder. -/
def parseLoc (cs : List Char) : Option (Nat × Nat × List Char) :=
  match cs with
  | '(' :: r =>
    let ds := r.takeWhile isPyDigit
    match ds with
    | [] => none
    | _ :: _ =>
      match r.drop ds.length with
      | ',' :: r3 =>
        let ds2 := r3.takeWhile isPyDigit
        match ds2 with
        | [] => none
        | _ :: _ =>
          match r3.drop ds2.length with
          | ')' :: rest => some (digitsToNat ds, digitsToNat ds2, rest)
          | _ => none
      | ')' :: rest => some (digitsToNat ds, 0, rest)
      | _ => none
  | _ => none

/-- One attempt of `MESSAGE_PATTERN` with the group-1 split fixed. -/
def attemptFull (g1 : List Char) (cs : List Char) : Option ParsedMsg :=
  match parseLoc cs with
  | none => none
  | some (ln, col, rest) =>
    match matchSeverity (dropWS rest) with
    | none => none
    | some (sev, rest2) =>
      match matchSevTail rest2 with
      | none => none
      | some (code, msg) =>
        some ⟨⟨g1⟩, ln, col, ⟨sev⟩, code.map (⟨·⟩), ⟨msg⟩⟩

/-- Lazy `(.+?)`: try split points from the shortest group 1 upward. -/
def matchFullGo (g1rev : List Char) : List Char → Option ParsedMsg
  | [] => none
  | c :: rest =>
    match attemptFull (c :: g1rev).reverse rest with
    | some m => some m
    | none => matchFullGo (c :: g1rev) rest

/-- Full embedding of `MESSAGE_PATTERN.match(line)`. -/
def matchFull (cs : List Char) : Option ParsedMsg := matchFullGo [] cs

/-- Embedding of `SIMPLE_MESSAGE_PATTERN.match(line)`. -/
def matchSimple (cs : List Char) : Option ParsedMsg :=
  match matchSeverity cs with
  | none => none
  | some (sev, rest) =>
    match matchSevTail rest with
    | none => none
    | some (code, msg) => some ⟨"", 0, 0, ⟨sev⟩, code.map (⟨·⟩), ⟨msg⟩⟩

/-- `re.search(r"(\d+)\s+lines?", line)`: leftmost start position whose
greedy digit run is followed by whitespace and (case-insensitive)
`line`; returns the numeric value of the digit run. -/
def searchLinesFrom : List Char → Option Nat
  | [] => none
  | c :: rest =>
    if isPyDigit c then
      let ds := c :: rest.takeWhile isPyDigit
      let after := rest.drop (rest.takeWhile isPyDigit).length
      let after1 := after.dropWhile isPyWS
      if after.length > after1.length && (ciPrefixSplit "line".data after1).isSome then
        some (digitsToNat ds)
      else searchLinesFrom rest
    else searchLinesFrom rest

/-- `models.CompilationError` (the fields the parser populates). -/
structure CompilationError where
  file : String
  line : Nat
  column : Nat
  message : String
  error_code : Option String
  deriving Repr, DecidableEq

/-- `models.CompilationStatistics`. -/
structure CompilationStatistics where
  lines_compiled : Nat := 0
  warnings_filtered : Nat := 0
  hints_filtered : Nat := 0
  deriving Repr, DecidableEq

/-- The parser's mutable state (`self.errors`, `self.statistics`). -/
structure PState where
  errors : List CompilationError := []
  statistics : CompilationStatistics := {}
  deriving Repr, DecidableEq

/-- `OutputParser._is_error`. -/
def is_error (severity : String) (error_code : Option String) : Bool :=
  let s := lowerStr severity
  if s = "fatal" || s = "schwerwiegend" then true
  else if s = "error" || s = "fehler" then true
  else
    -- `if error_code and error_code[0] in ("E", "F")`
    match error_code with
    | some ec =>
      match ec.data with
      | ch :: _ => ch = 'E' || ch = 'F'
      | [] => false
    | none => false

/-- `OutputParser._is_warning`. -/
def is_warning (severity : String) (error_code : Option String) : Bool :=
  if lowerStr severity = "warning" || lowerStr severity = "warnung" then true
  else
    match error_code with
    | some ec =>
      match ec.data with
      | ch :: _ => ch = 'W'
      | [] => false
    | none => false

/-- `OutputParser._is_hint`. -/
def is_hint (severity : String) (error_code : Option String) : Bool :=
  if lowerStr severity = "hint" || lowerStr severity = "hinweis" then true
  else
    match error_code with
    | some ec =>
      match ec.data with
      | ch :: _ => ch = 'H'
      | [] => false
    | none => false

/-- `OutputParser._process_message`: classify one matched message and
either record it as an error or count it as a filtered warning/hint. -/
def process_message (st : PState) (severity : String) (error_code : Option String)
    (message : String) (file_path : String) (line_num col_num : Nat) : PState :=
  let ec := error_code.map upperStr
  if is_warning severity ec then
    { st with statistics.warnings_filtered := st.statistics.warnings_filtered + 1 }
  else if is_hint severity ec then
    { st with statistics.hints_filtered := st.statistics.hints_filtered + 1 }
  else if is_error severity ec then
    { st with errors := st.errors ++
        [⟨if file_path = "" then "(unknown)" else file_path, line_num, col_num,
          ⟨pyStrip message.data⟩, ec⟩] }
  else st

/-- `OutputParser._parse_line`. -/
def parse_line (st : PState) (line : List Char) : PState :=
  match matchFull line with
  | some m =>
    process_message st m.severity m.errorCode m.message m.filePath m.lineNum m.colNum
  | none =>
    match matchSimple line with
    | some m =>
      process_message st m.severity m.errorCode m.message m.filePath m.lineNum m.colNum
    | none =>
      match searchLinesFrom line with
      | some n => { st with statistics.lines_compiled := n }
      | none => st

/-- `OutputParser.parse`: split on newlines, strip each line, skip empty
lines, feed the rest to `_parse_line`. -/
def parse (output : String) : List CompilationError × CompilationStatistics :=
  let st := (splitNl output.data).foldl
    (fun st l =>
      let l' := pyStrip l
      if l'.isEmpty then st else parse_line st l')
    {}
  (st.errors, st.statistics)

/-- A line counts as a classified diagnostic message when, after
stripping, it is nonempty and matched by one of the two regexes. -/
def classified (l : List Char) : Bool :=
  let t := pyStrip l
  !t.isEmpty && ((matchFull t).isSome || (matchSimple t).isSome)

/-- The kept-plus-filtered total of a parser state. -/
def sumOf (st : PState) : Nat :=
  st.errors.length + st.statistics.warnings_filtered + st.statistics.hints_filtered

/-- The eight severity words after `str.lower()`. -/
def loweredSeverityWords : List String :=
  ["error", "warning", "hint", "fatal", "fehler", "warnung", "hinweis", "schwerwiegend"]

end OutputParser

/-! ## `src/compiler.py`: DelphiCompiler

`_build_command` is embedded as a function of its call-boundary inputs:
the configuration values it reads (`self.config.compiler.flags["flags"]`,
`get_all_search_paths(platform)`, namespace prefixes, aliases, Linux SDK
settings) are fields of `ConfigCtx`, and the parsed `.dproj` settings are
an optional `DProjSettings`.  `_execute_compiler`'s interaction with the
operating system (`subprocess.run`, the response file on disk) is
modelled by a `ProcOutcome` describing how the process invocation ends
and a `responseFileExists` flag tracking whether the written response
file is still on disk when the function returns. -/

namespace DelphiCompiler

/-- Normalisation used by `_deduplicate_paths`:
`str(path).lower().replace("/", "\\")`. -/
def normPath (p : String) : String := ⟨replaceCh '/' '\\' (lowerL p.data)⟩

/-- Loop of `_deduplicate_paths` with the `seen` set made explicit. -/
def dedupGo (seen : List String) : List String → List String
  | [] => []
  | p :: rest =>
    let k := normPath p
    if k ∈ seen then dedupGo seen rest
    else p :: dedupGo (k :: seen) rest

/-- `DelphiCompiler._deduplicate_paths`. -/
def deduplicate_paths (paths : List String) : List String := dedupGo [] paths

/-- One pass of `_merge_namespaces`' append loop; the state is the
lower-cased `seen` set together with the merged list. -/
def addNamespaces (acc : List String × List String) (ns : List String) :
    List String × List String :=
  ns.foldl
    (fun acc n =>
      let nl := lowerStr n
      if nl ∈ acc.1 then acc else (nl :: acc.1, acc.2 ++ [n]))
    acc

/-- `DelphiCompiler._merge_namespaces`: config namespaces first, then the
dproj namespaces that are not already present (case-insensitively). -/
def merge_namespaces (config_namespaces dproj_namespaces : List String) : List String :=
  (addNamespaces (addNamespaces ([], []) config_namespaces) dproj_namespaces).2

/-- The fields of `models.DProjSettings` read by `_build_command`. -/
structure DProjSettings where
  compiler_flags : List String := []
  defines : List String := []
  unit_search_paths : List String := []
  include_paths : List String := []
  resource_paths : List String := []
  namespace_prefixes : List String := []
  output_dir : Option String := none
  dcu_output_dir : Option String := none
  deriving Repr, DecidableEq

/-- The configuration values `_build_command` reads from `self.config`
and `self.config_loader` (already resolved for the target platform). -/
structure ConfigCtx where
  config_flags : List String := []
  config_search_paths : List String := []
  config_namespaces : List String := []
  aliases : List (String × String) := []
  linux_sdk_sysroot : Option String := none
  linux_sdk_libpaths : List String := []
  deriving Repr, DecidableEq

/-- `skip_flags` of `_build_command`. -/
def skip_flags : List String := ["-B", "-Q", "--syslibroot", "--libpath"]

/-- The `.dproj` flag loop of `_build_command`: append each flag only if
it is not already in the command. -/
def addDprojFlags (cmd : List String) : List String → List String
  | [] => cmd
  | f :: rest =>
    if f ∈ cmd then addDprojFlags cmd rest
    else addDprojFlags (cmd ++ [f]) rest

/-- `DelphiCompiler._build_command`.  `project_name` is
`project_path.name`, appended last. -/
def build_command (compiler_path : String) (project_name : String)
    (dproj : Option DProjSettings) (force_build_all : Bool)
    (additional_search_paths additional_flags : List String)
    (platform : String) (cfg : ConfigCtx) : List String :=
  let command := [compiler_path]
  let command := command ++ cfg.config_flags.filter (fun f => !skip_flags.contains f)
  let command :=
    match dproj with
    | some d =>
      let c := addDprojFlags command d.compiler_flags
      if d.defines.isEmpty then c else c ++ ["-D" ++ joinWith ";" d.defines]
    | none => command
  let command := if force_build_all then command ++ ["-B"] else command
  let command := command ++ ["-Q"]
  let all_search_paths := cfg.config_search_paths ++
    (match dproj with
     | some d => d.unit_search_paths ++ d.include_paths ++ d.resource_paths
     | none => []) ++ additional_search_paths
  let unique_paths := deduplicate_paths all_search_paths
  let command :=
    if unique_paths.isEmpty then command
    else
      let sp := joinWith ";" unique_paths
      command ++ ["-U" ++ sp, "-I" ++ sp, "-R" ++ sp]
  let ns := merge_namespaces cfg.config_namespaces
    (match dproj with | some d => d.namespace_prefixes | none => [])
  let command := if ns.isEmpty then command else command ++ ["-NS" ++ joinWith ";" ns]
  let command :=
    if cfg.aliases.isEmpty then command
    else
      let alias_parts := cfg.aliases.map (fun p => p.1 ++ "=" ++ p.2)
      if alias_parts.isEmpty then command
      else command ++ ["-A" ++ joinWith ";" alias_parts]
  let command :=
    match dproj with
    | some d =>
      let c := match d.output_dir with
        | some o => command ++ ["-E" ++ o]
        | none => command
      match d.dcu_output_dir with
      | some o => c ++ ["-NU" ++ o]
      | none => c
    | none => command
  let command :=
    if platform = "Linux64" then
      let c := match cfg.linux_sdk_sysroot with
        | some s => command ++ ["--syslibroot:" ++ s]
        | none => command
      if cfg.linux_sdk_libpaths.isEmpty then c
      else c ++ ["--libpath:" ++ joinWith ";" cfg.linux_sdk_libpaths]
    else command
  let command := command ++ additional_flags
  command ++ [project_name]

/-- How the `subprocess.run` call inside `_execute_compiler` ends: a
completed process (any exit code), `subprocess.TimeoutExpired`, or any
other exception raised when spawning/running the process. -/
inductive ProcOutcome where
  | completed (stdout stderr : String) (returncode : Int)
  | timedOut
  | spawnFailure (msg : String)
  deriving Repr, DecidableEq

/-- Observable result of `_execute_compiler`: the returned output/exit
code pair and whether the response file it may have written is still on
disk when the function returns. -/
structure ExecResult where
  output : String
  exitCode : Int
  responseFileExists : Bool
  deriving Repr, DecidableEq

/-- Quoting used when writing the response file:
`if " " in arg and not arg.startswith('"')`. -/
def quoteArg (a : String) : String :=
  if containsSub a " " && !isPrefixL "\"".data a.data then "\"" ++ a ++ "\"" else a

/-- Contents of the response file: every argument after the executable,
one per line, quoted when it contains a space. -/
def responseFileContent (command : List String) : String :=
  String.join ((command.drop 1).map (fun a => quoteArg a ++ "\n"))

/-- `DelphiCompiler._execute_compiler`.  The command line is joined with
spaces and a response file is used when it exceeds 8000 characters; the
file is written before `subprocess.run` and unlinked after it returns.
`TimeoutExpired` and other exceptions jump to the `except` clauses,
skipping the unlink, so on those paths the response file (if created)
remains on disk. -/
def execute_compiler (command : List String) (outcome : ProcOutcome) : ExecResult :=
  let command_line := joinWith " " command
  let use_response_file := command_line.length > 8000
  match outcome with
  | .completed stdout stderr returncode =>
    { output := stdout ++ "\n" ++ stderr, exitCode := returncode,
      responseFileExists := false }
  | .timedOut =>
    { output := "Compilation timed out after 5 minutes", exitCode := 1,
      responseFileExists := use_response_file }
  | .spawnFailure e =>
    { output := "Compiler execution failed: " ++ e, exitCode := 1,
      responseFileExists := use_response_file }

/-- The result-building tail of `compile_project` (lines 119–138): parse
the captured output and return a `CompilationResult` with
`success = (exit_code == 0)`.  Wall-clock timing and output-executable
discovery are filesystem effects outside the model. -/
structure CompilationResult where
  success : Bool
  exit_code : Int
  errors : List OutputParser.CompilationError
  statistics : OutputParser.CompilationStatistics
  deriving Repr, DecidableEq

/-- Build the `CompilationResult` from an execution result, as
`compile_project` does after `_execute_compiler` returns. -/
def compile_result (e : ExecResult) : CompilationResult :=
  let pr := OutputParser.parse e.output
  { success := e.exitCode = 0, exit_code := e.exitCode,
    errors := pr.1, statistics := pr.2 }

end DelphiCompiler

/-! ## `src/path_utils.py`: convert_wsl_to_windows_path

The pattern `^/mnt/([a-zA-Z])(/.*)?$` is embedded with Python `re`
semantics: `.` does not match a newline and `$` matches at the end of the
string or just before a single trailing newline.  Hence group 2 matches a
`/`-led remainder exactly when its newlines are confined to one final
newline (which is then left out of the group), and the group is absent
exactly when nothing, or a lone newline, follows the drive letter.
`sys.platform in ("win32", "win64")` is the `isWindows` parameter. -/

namespace PathUtils

/-- `_WSL_PATH_PATTERN.match(path_str)`: on success returns the drive
letter (group 1) and group 2 (or `[]` when absent, as `match.group(2) or ""`). -/
def wslMatch (cs : List Char) : Option (Char × List Char) :=
  match cs with
  | '/' :: 'm' :: 'n' :: 't' :: '/' :: d :: rest =>
    if isAsciiLetter d then
      match rest with
      | [] => some (d, [])
      | ['\n'] => some (d, [])
      | '/' :: u =>
        if '\n' ∉ u then some (d, '/' :: u)
        else if u.getLast? = some '\n' ∧ u.count '\n' = 1 then
          some (d, '/' :: u.dropLast)
        else none
      | _ => none
    else none
  | _ => none

/-- `path_utils.convert_wsl_to_windows_path`; on non-Windows platforms
the input is returned unchanged, on Windows the matched drive letter is
upper-cased and forward slashes of group 2 become backslashes. -/
def convert_wsl_to_windows_path (isWindows : Bool) (path_str : String) : String :=
  if !isWindows then path_str
  else
    match wslMatch path_str.data with
    | none => path_str
    | some (d, g2) => ⟨d.toUpper :: ':' :: replaceCh '/' '\\' g2⟩

/-- Modelled from the claim's words: on Windows, rewrite exactly the
strings of the form `/mnt/<single drive letter>` optionally followed by
`/rest` into the upper-cased letter, a colon, and the suffix with every
forward slash replaced by a backslash; return every other string
unchanged. -/
def specConvert (isWindows : Bool) (path_str : String) : String :=
  if !isWindows then path_str
  else
    match path_str.data with
    | '/' :: 'm' :: 'n' :: 't' :: '/' :: d :: rest =>
      if isAsciiLetter d ∧ (rest = [] ∨ rest.head? = some '/') then
        ⟨d.toUpper :: ':' :: replaceCh '/' '\\' rest⟩
      else path_str
    | _ => path_str

/-- `core rest` is the suffix the amended description rewrites: `rest`
with a single trailing newline removed. -/
def core (rest : List Char) : List Char :=
  if rest.getLast? = some '\n' then rest.dropLast else rest

/-- The amended description: as `specConvert`, except that the rewritten
suffix must be newline-free, a single trailing newline after the form is
tolerated and dropped, and any other string is returned unchanged. -/
def specConvertAmended (isWindows : Bool) (path_str : String) : String :=
  if !isWindows then path_str
  else
    match path_str.data with
    | '/' :: 'm' :: 'n' :: 't' :: '/' :: d :: rest =>
      if isAsciiLetter d ∧ (core rest = [] ∨ (core rest).head? = some '/') ∧
          '\n' ∉ core rest then
        ⟨d.toUpper :: ':' :: replaceCh '/' '\\' (core rest)⟩
      else path_str
    | _ => path_str

end PathUtils

/-! ## `src/buildlog_parser.py`: BuildLogParser._parse_compiler_command

The compiler-path regex `([a-z]:\\[^"]+\\dcc(?:32|64)\.exe)` (ignorecase)
is embedded with `re.search` semantics: leftmost start, and the greedy
`[^"]+` realised by trying the candidate positions of the
`\dcc32.exe`/`\dcc64.exe` literal from the rightmost one reachable
through a quote-free run.  The flag-value patterns
`-U(.*?)(?=\s+-[A-Z]+|\s+Working\.dpr|$)` etc. are embedded with their
lazy group running to the first position where the lookahead holds, and
`re.finditer` resuming after each match. -/

namespace BuildLogParser

/-- `models.Platform` (the two values this parser produces). -/
inductive Platform where
  | win32
  | win64
  deriving Repr, DecidableEq

/-- The string value of a platform (`Platform.WIN32.value` etc.). -/
def Platform.value : Platform → String
  | .win32 => "Win32"
  | .win64 => "Win64"

/-- Case-insensitive `\dcc32.exe` / `\dcc64.exe` literal at the head. -/
def dccLitAt (cs : List Char) : Bool :=
  (ciPrefixSplit "\\dcc32.exe".data cs).isSome ||
    (ciPrefixSplit "\\dcc64.exe".data cs).isSome

/-- Greedy `[^"]+` backtracking: the largest `i ≥ 1` within the
quote-free bound at which the `\dccNN.exe` literal starts. -/
def bestDccFrom (u : List Char) : Nat → Option Nat
  | 0 => none
  | i + 1 => if dccLitAt (u.drop (i + 1)) then some (i + 1) else bestDccFrom u i

/-- One attempt of the compiler-path pattern at the current position:
drive letter, colon, backslash, quote-free run, `\dccNN.exe`.  Returns
the full matched slice (group 1). -/
def compilerAt (cs : List Char) : Option (List Char) :=
  match cs with
  | a :: ':' :: '\\' :: u =>
    if isAsciiLetter a then
      match bestDccFrom u (u.takeWhile (fun c => c ≠ '"')).length with
      | some i => some (a :: ':' :: '\\' :: u.take (i + "\\dcc32.exe".length))
      | none => none
    else none
  | _ => none

/-- `re.search` of the compiler-path pattern: leftmost matching start. -/
def searchCompiler : List Char → Option (List Char)
  | [] => none
  | c :: rest =>
    match compilerAt (c :: rest) with
    | some r => some r
    | none => searchCompiler rest

/-- `pathlib.Path(...).name`: the part after the last separator. -/
def lastComponent (p : List Char) : List Char :=
  (p.reverse.takeWhile (fun c => c ≠ '\\' && c ≠ '/')).reverse

/-- `re.search(r"Studio\\([\d.]+)", path, re.IGNORECASE)`: the version
digits-and-dots run following the first `Studio\` occurrence at which the
run is nonempty. -/
def studioVersionFrom : List Char → Option (List Char)
  | [] => none
  | c :: rest =>
    match ciPrefixSplit "Studio\\".data (c :: rest) with
    | some (_, r) =>
      let ds := r.takeWhile (fun x => isPyDigit x || x = '.')
      if ds.isEmpty then studioVersionFrom rest else some ds
    | none => studioVersionFrom rest

/-- The lookahead `(?=\s+-[A-Z]+|\s+Working\.dpr|$)` of the search-path
flag patterns (ignorecase; `$` at the end or before a lone final newline). -/
def pathLookahead (cs : List Char) : Bool :=
  (match cs with
   | [] => true
   | ['\n'] => true
   | _ => false) ||
  (let w := cs.takeWhile isPyWS
   let r := cs.drop w.length
   decide (w.length ≥ 1) &&
     ((match r with
       | '-' :: t => !(t.takeWhile isAsciiLetter).isEmpty
       | _ => false) ||
      (ciPrefixSplit "Working.dpr".data r).isSome))

/-- Length consumed by the lazy `(.*?)` before `pathLookahead` holds. -/
def firstPathLen : List Char → Nat
  | [] => 0
  | c :: rest => if pathLookahead (c :: rest) then 0 else firstPathLen rest + 1

/-- `re.finditer` for one flag pattern: scan for the flag, take the lazy
group up to the lookahead, resume after the match. -/
def findFlagGo (flag : List Char) : Nat → List Char → List (List Char)
  | 0, _ => []
  | _, [] => []
  | fuel + 1, c :: rest =>
    match ciPrefixSplit flag (c :: rest) with
    | some (_, afterFlag) =>
      let n := firstPathLen afterFlag
      afterFlag.take n :: findFlagGo flag fuel (afterFlag.drop n)
    | none => findFlagGo flag fuel (c :: rest).tail

/-- Quote removal, newline normalisation and whitespace collapsing of one
flag value (`path_string.replace(...)` and `' '.join(split())`). -/
def cleanPathString (g : List Char) : List Char :=
  let s1 := g.filter (fun c => c ≠ '"' && c ≠ '\'')
  let s2 := s1.map (fun c => if c = '\n' || c = '\r' then ' ' else c)
  joinWithCh ' ' (pySplitWS s2)

/-- Semicolon split with per-piece strip and empty filter. -/
def splitSemis (cs : List Char) : List (List Char) :=
  ((splitOnCh ';' cs).map pyStrip).filter (fun p => !p.isEmpty)

/-- The stop markers cutting trailing garbage from a path candidate. -/
def stopMarkers : List (List Char) := [" -".data, " Working.dpr".data, " .dpr".data]

/-- Python `s.split(marker)[0]`: the prefix before the first occurrence. -/
def beforeFirst (marker : List Char) : List Char → List Char
  | [] => []
  | c :: rest => if isPrefixL marker (c :: rest) then [] else c :: beforeFirst marker rest

/-- Validation and cleanup of one semicolon-separated path candidate. -/
def processPath (p : List Char) : Option (List Char) :=
  if p.isEmpty || p.length < 3 then none
  else if !(p.contains ':' || p.contains '\\' || p.contains '/') then none
  else if (match p with | '-' :: _ => true | '$' :: _ => true | _ => false) then none
  else
    let clean0 := pyStrip p
    let clean := stopMarkers.foldl
      (fun acc m => if containsSubL m acc then pyStrip (beforeFirst m acc) else acc) clean0
    if !clean.isEmpty && decide (clean.length > 2) then some clean else none

/-- Normalisation used by the search-path dedup: `as_posix().lower()`
(Windows path flavour: backslashes become forward slashes). -/
def normPosix (p : List Char) : List Char := lowerL (replaceCh '\\' '/' p)

/-- Order-preserving dedup by `normPosix`. -/
def dedupPosixGo (seen : List (List Char)) : List (List Char) → List (List Char)
  | [] => []
  | p :: rest =>
    let k := normPosix p
    if k ∈ seen then dedupPosixGo seen rest
    else p :: dedupPosixGo (k :: seen) rest

/-- `BuildLogParser._extract_search_paths`. -/
def extract_search_paths (command : List Char) : List (List Char) :=
  let flags := ["-U".data, "-I".data, "-R".data, "-O".data]
  let all_paths := flags.foldl
    (fun acc flag =>
      (findFlagGo flag command.length command).foldl
        (fun acc2 g => acc2 ++ (splitSemis (cleanPathString g)).filterMap processPath)
        acc)
    []
  dedupPosixGo [] all_paths

/-- ASCII model of `\w`. -/
def isWordChar (c : Char) : Bool := isAsciiLetter c || isPyDigit c || c = '_'

/-- The lookahead `(?=\s+-[A-Z]|\s+\w+\.dpr|$)` of the `-NS` pattern. -/
def nsLookahead (cs : List Char) : Bool :=
  (match cs with
   | [] => true
   | ['\n'] => true
   | _ => false) ||
  (let w := cs.takeWhile isPyWS
   let r := cs.drop w.length
   decide (w.length ≥ 1) &&
     ((match r with
       | '-' :: t :: _ => isAsciiLetter t
       | _ => false) ||
      (let ww := r.takeWhile isWordChar
       !ww.isEmpty && (ciPrefixSplit ".dpr".data (r.drop ww.length)).isSome)))

/-- Length consumed by the lazy `(.*?)` before `nsLookahead` holds. -/
def firstNsLen : List Char → Nat
  | [] => 0
  | c :: rest => if nsLookahead (c :: rest) then 0 else firstNsLen rest + 1

/-- `re.search` of `-NS(.*?)(?=...)`: the first match's group 1. -/
def searchFlagNS : List Char → Option (List Char)
  | [] => none
  | c :: rest =>
    match ciPrefixSplit "-NS".data (c :: rest) with
    | some (_, after) => some (after.take (firstNsLen after))
    | none => searchFlagNS rest

/-- `BuildLogParser._extract_namespace_prefixes`. -/
def extract_namespace_prefixes (command : List Char) : List (List Char) :=
  match searchFlagNS command with
  | none => []
  | some g =>
    let s1 := g.filter (fun c => c ≠ '\n' && c ≠ '\r')
    let s2 := joinWithCh ' ' (pySplitWS s1)
    splitSemis s2

/-- `re.search(r"-A([^\s]+)", command)` (case sensitive). -/
def searchAliasFlag : List Char → Option (List Char)
  | [] => none
  | c :: rest =>
    match c :: rest with
    | '-' :: 'A' :: after =>
      let run := after.takeWhile (fun x => !isPyWS x)
      if run.isEmpty then searchAliasFlag rest else some run
    | _ => searchAliasFlag rest

/-- Ordered-dictionary assignment: overwrite in place or append. -/
def alSetL (m : List (List Char × List Char)) (k v : List Char) :
    List (List Char × List Char) :=
  if m.any (fun p => p.1 = k) then m.map (fun p => if p.1 = k then (k, v) else p)
  else m ++ [(k, v)]

/-- `BuildLogParser._extract_unit_aliases`. -/
def extract_unit_aliases (command : List Char) : List (List Char × List Char) :=
  match searchAliasFlag command with
  | none => []
  | some run =>
    (splitSemis run).foldl
      (fun aliases adef =>
        if adef.contains '=' then
          let old_name := adef.takeWhile (fun c => c ≠ '=')
          let new_name := adef.drop (old_name.length + 1)
          alSetL aliases (pyStrip old_name) (pyStrip new_name)
        else aliases)
      []

/-- `(--[a-z][-a-z]*)` at the current position (ignorecase). -/
def longFlagAt (cs : List Char) : Option (List Char) :=
  match cs with
  | '-' :: '-' :: c :: rest =>
    if isAsciiLetter c then
      some ('-' :: '-' :: c :: rest.takeWhile (fun x => isAsciiLetter x || x = '-'))
    else none
  | _ => none

/-- `(-\$[A-Z][+-]?)` at the current position (ignorecase). -/
def dollarFlagAt (cs : List Char) : Option (List Char) :=
  match cs with
  | '-' :: '$' :: c :: rest =>
    if isAsciiLetter c then
      some ('-' :: '$' :: c ::
        (match rest with
         | '+' :: _ => ['+']
         | '-' :: _ => ['-']
         | _ => []))
    else none
  | _ => none

/-- `(-T[A-Z]\.[a-z]+)` at the current position (ignorecase). -/
def tFlagAt (cs : List Char) : Option (List Char) :=
  match cs with
  | '-' :: t :: c :: '.' :: rest =>
    if t.toLower = 't' && isAsciiLetter c then
      let run := rest.takeWhile isAsciiLetter
      if run.isEmpty then none else some ('-' :: t :: c :: '.' :: run)
    else none
  | _ => none

/-- `(-[A-Z])(?=\s|$)` at the current position (ignorecase). -/
def singleFlagAt (cs : List Char) : Option (List Char) :=
  match cs with
  | '-' :: c :: rest =>
    if isAsciiLetter c &&
        (match rest with
         | [] => true
         | r :: _ => isPyWS r) then
      some ['-', c]
    else none
  | _ => none

/-- `re.finditer` for one flag pattern, resuming after each match. -/
def finditerPat (patAt : List Char → Option (List Char)) :
    Nat → List Char → List (List Char)
  | 0, _ => []
  | _, [] => []
  | fuel + 1, c :: rest =>
    match patAt (c :: rest) with
    | some m => m :: finditerPat patAt fuel ((c :: rest).drop m.length)
    | none => finditerPat patAt fuel rest

/-- `skip_prefixes` of `_extract_compiler_flags`. -/
def flag_skip_prefixes : List (List Char) :=
  ["-U".data, "-I".data, "-R".data, "-O".data, "-NS".data, "-A".data, "-D".data,
   "-E".data, "-LE".data, "-LN".data, "-NU".data, "-NB".data, "-NH".data, "-NO".data]

/-- `BuildLogParser._extract_compiler_flags`. -/
def extract_compiler_flags (command : List Char) : List (List Char) :=
  [longFlagAt, dollarFlagAt, tFlagAt, singleFlagAt].foldl
    (fun flags patAt =>
      (finditerPat patAt command.length command).foldl
        (fun flags flag =>
          if flag_skip_prefixes.any (fun pre => isPrefixL pre (upperL flag)) then flags
          else if flag ∈ flags then flags
          else flags ++ [flag])
        flags)
    []

/-- `models.BuildLogInfo` (the fields this parser populates; the SDK
fields keep their model defaults). -/
structure BuildLogInfo where
  compiler_path : String
  delphi_version : String
  platform : Platform
  build_config : String
  search_paths : List String
  namespace_prefixes : List String
  unit_aliases : List (String × String)
  compiler_flags : List String
  sdk_sysroot : Option String := none
  sdk_libpaths : List String := []
  deriving Repr, DecidableEq

instance : Inhabited BuildLogInfo :=
  ⟨{ compiler_path := "", delphi_version := "", platform := .win32,
     build_config := "", search_paths := [], namespace_prefixes := [],
     unit_aliases := [], compiler_flags := [] }⟩

/-- `BuildLogParser._parse_compiler_command`; `none` models the
`ValueError` raised when no compiler path is found in the command. -/
def parse_compiler_command (command : String) : Option BuildLogInfo :=
  match searchCompiler command.data with
  | none => none
  | some pathChars =>
    let name := lastComponent pathChars
    some
      { compiler_path := ⟨pathChars⟩,
        delphi_version :=
          match studioVersionFrom pathChars with
          | some v => (⟨v⟩ : String)
          | none => "unknown",
        platform :=
          if containsSubL "dcc32".data (lowerL name) then Platform.win32
          else Platform.win64,
        build_config :=
          if containsSubL "\\Debug".data command.data ||
              containsSubL "\\debug".data command.data then "Debug"
          else "Release",
        search_paths := (extract_search_paths command.data).map (⟨·⟩),
        namespace_prefixes := (extract_namespace_prefixes command.data).map (⟨·⟩),
        unit_aliases := (extract_unit_aliases command.data).map
          (fun p => ((⟨p.1⟩ : String), (⟨p.2⟩ : String))),
        compiler_flags := (extract_compiler_flags command.data).map (⟨·⟩) }

end BuildLogParser

/-! ## `src/config_extender.py`: ConfigExtender

The parsed TOML document is modelled as an ordered key-value tree
(`TomlVal`), Python dicts as insertion-ordered association lists with
in-place assignment (`alSet`).  `os.getenv("USERNAME", "")` is the
`username` parameter, `self.use_env_vars` the `use_env` parameter, and
`_deep_copy_dict` is the identity of the purely functional model.  Where
the Python code would raise a `TypeError` on a value of the wrong shape
(for example a string where the code indexes into a dict), `asTable` /
`asStrList` read an empty aggregate instead; the claims are evaluated on
well-shaped documents. -/

namespace ConfigExtender

open BuildLogParser (BuildLogInfo lastComponent)

/-- A TOML value: the shapes `tomllib.load` produces that this module
touches. -/
inductive TomlVal where
  | vStr (s : String)
  | vInt (n : Int)
  | vBool (b : Bool)
  | vList (xs : List TomlVal)
  | vTable (kvs : List (String × TomlVal))
  deriving Repr

/-- An insertion-ordered dictionary. -/
abbrev Table := List (String × TomlVal)

/-- Python `d.get(k)`. -/
def alGet : Table → String → Option TomlVal
  | [], _ => none
  | (k', v) :: rest, k => if k' = k then some v else alGet rest k

/-- Python `k in d`. -/
def alHasKey (t : Table) (k : String) : Bool := (alGet t k).isSome

/-- Python `d[k] = v`: overwrite in place (first occurrence), else append. -/
def alSet : Table → String → TomlVal → Table
  | [], k, v => [(k, v)]
  | (k', v') :: rest, k, v =>
    if k' = k then (k, v) :: rest else (k', v') :: alSet rest k v

/-- Read a value expected to be a table. -/
def asTable : Option TomlVal → Table
  | some (.vTable t) => t
  | _ => []

/-- Read a value expected to be a list of strings. -/
def asStrList : Option TomlVal → List String
  | some (.vList xs) =>
    xs.filterMap (fun v => match v with | .vStr s => some s | _ => none)
  | _ => []

/-- `Path(p).parent`: everything before the last path separator. -/
def parentDir (p : String) : String :=
  let r := p.data.reverse
  match r.dropWhile (fun c => c ≠ '\\' && c ≠ '/') with
  | [] => p
  | _ :: rest => ⟨rest.reverse⟩

/-- Python `str.rstrip("/")`. -/
def rstripSlash (cs : List Char) : List Char :=
  (cs.reverse.dropWhile (fun c => c = '/')).reverse

/-- `ConfigExtender._format_path`: repair the known IDE encoding
corruption, optionally substitute the user directory with
`${USERNAME}`, and serialise with forward slashes. -/
def format_path (use_env : Bool) (username : String) (path : String) : String :=
  let cs := path.data
  let cs := replaceSub "½SUSERDIR%".data "${USERDIR}".data cs
  let cs := replaceSub "½SUSERNAME%".data "${USERNAME}".data cs
  let cs := replaceSub "½S".data "$\x7b".data cs
  let cs :=
    if use_env && !username.data.isEmpty then
      let user_pattern := "C:\\Users\\".data ++ username.data
      let cs1 := replaceSub user_pattern "C:/Users/${USERNAME}".data cs
      replaceSub (lowerL user_pattern) "C:/Users/${USERNAME}".data cs1
    else cs
  ⟨replaceCh '\\' '/' cs⟩

/-- `ConfigExtender._normalize_path_for_comparison`: lower case, forward
slashes, no trailing slash, `${USERNAME}` expanded when set. -/
def normalize_path_for_comparison (username : String) (path : String) : String :=
  let n := rstripSlash (replaceCh '\\' '/' (lowerL path.data))
  if !username.data.isEmpty then
    ⟨replaceSub "${username}".data (lowerL username.data) n⟩
  else ⟨n⟩

/-- The known-library pattern table of `_derive_library_name`, in source
order. -/
def libPatterns : List (String × String) :=
  [("dunitx", "dunitx"), ("delphi-mocks", "delphi_mocks"),
   ("delphi_mocks", "delphi_mocks"), ("testinsight", "testinsight"),
   ("spring4d", "spring4d"), ("zeoslib", "zeoslib"),
   ("dmvcframework", "dmvcframework"), ("loggerpro", "loggerpro"),
   ("jcl", "jcl"), ("jvcl", "jvcl"), ("abbrevia", "abbrevia"),
   ("lockbox", "lockbox"), ("omni", "omnithreadlibrary"),
   ("python4delphi", "python4delphi"), ("markdown", "markdown"),
   ("toml", "toml"), ("yaml", "yaml")]

/-- `ConfigExtender._derive_library_name`. -/
def derive_library_name (path : String) : String :=
  let path_str := lowerL path.data
  match libPatterns.find? (fun pr => containsSubL pr.1.data path_str) with
  | some pr =>
    if containsSubL "include".data path_str then pr.2 ++ "_include"
    else if containsSubL "source".data path_str || containsSubL "src".data path_str then
      pr.2 ++ "_source"
    else if containsSubL "\\lib\\".data path_str || containsSubL "/lib/".data path_str then
      pr.2 ++ "_lib"
    else pr.2
  | none =>
    let dir_name := (lowerL (lastComponent path.data)).map
      (fun c => if c = ' ' then '_' else if c = '-' then '_' else c)
    -- `re.sub(r"[\d._-]+$", "", dir_name)`
    let dir_name := (dir_name.reverse.dropWhile
      (fun c => isPyDigit c || c = '.' || c = '_' || c = '-')).reverse
    if !dir_name.isEmpty && decide (dir_name.length > 2) then ⟨dir_name⟩
    else "library"

/-- Decimal digit character. -/
def digitChar (n : Nat) : Char :=
  if n = 0 then '0' else if n = 1 then '1' else if n = 2 then '2'
  else if n = 3 then '3' else if n = 4 then '4' else if n = 5 then '5'
  else if n = 6 then '6' else if n = 7 then '7' else if n = 8 then '8'
  else if n = 9 then '9' else '*'

/-- Decimal rendering of a natural number (Python `f"{counter}"`), with
structural fuel; `natRepr` instantiates the fuel adequately. -/
def natReprGo : Nat → Nat → List Char
  | 0, _ => []
  | fuel + 1, n =>
    if n < 10 then [digitChar n]
    else natReprGo fuel (n / 10) ++ [digitChar (n % 10)]

/-- Decimal rendering of a natural number. -/
def natRepr (n : Nat) : String := ⟨natReprGo (n + 1) n⟩

/-- Counter loop of `_make_unique_name`; the fuel (one more than the
number of used names) covers the finitely many candidates the Python
`while` can reject before finding a free one. -/
def make_unique_go (base : String) : Nat → Nat → List String → String
  | 0, counter, _ => base ++ "_" ++ natRepr counter
  | fuel + 1, counter, used =>
    let cand := base ++ "_" ++ natRepr counter
    if cand ∈ used then make_unique_go base fuel (counter + 1) used else cand

/-- `ConfigExtender._make_unique_name`. -/
def make_unique_name (base : String) (used : List String) : String :=
  if base ∈ used then make_unique_go base (used.length + 1) 2 used else base

/-- The `lib_<platform>_<config>` field name of `_merge_system_paths`. -/
def sysField (info : BuildLogInfo) : String :=
  "lib_" ++ lowerStr info.platform.value ++ "_" ++ lowerStr info.build_config

/-- The opposite-configuration field name of `_merge_system_paths`. -/
def sysOtherField (info : BuildLogInfo) : String :=
  "lib_" ++ lowerStr info.platform.value ++ "_" ++
    (if lowerStr info.build_config = "debug" then "release" else "debug")

/-- `ConfigExtender._merge_system_paths`: returns the updated system
table, paths added and paths skipped. -/
def merge_system_paths (use_env : Bool) (username : String)
    (existing_system : Table) (info : BuildLogInfo) : Table × Nat × Nat :=
  let platform := info.platform.value
  let config := lowerStr info.build_config
  let compiler_root := parentDir (parentDir info.compiler_path)
  let lib_path := compiler_root ++ "\\lib\\" ++ platform ++ "\\" ++ config
  let t1 :=
    if alHasKey existing_system (sysField info) then existing_system
    else alSet existing_system (sysField info)
      (.vStr (format_path use_env username lib_path))
  let added1 : Nat := if alHasKey existing_system (sysField info) then 0 else 1
  let skipped1 : Nat := if alHasKey existing_system (sysField info) then 1 else 0
  let other_config := if config = "debug" then "release" else "debug"
  let other_lib_path := compiler_root ++ "\\lib\\" ++ platform ++ "\\" ++ other_config
  let t2 :=
    if alHasKey t1 (sysOtherField info) then t1
    else alSet t1 (sysOtherField info)
      (.vStr (format_path use_env username other_lib_path))
  let added2 : Nat := if alHasKey t1 (sysOtherField info) then 0 else 1
  (t2, added1 + added2, skipped1)

/-- Loop state of `_merge_library_paths`: the table, the normalised
existing-path set, the used names, paths added and skipped. -/
structure LibMergeState where
  libs : Table
  normSet : List String
  used : List String
  added : Nat
  skipped : Nat

/-- One iteration of the `_merge_library_paths` loop. -/
def merge_library_step (use_env : Bool) (username : String)
    (st : LibMergeState) (path : String) : LibMergeState :=
  let normalized_new := normalize_path_for_comparison username path
  if normalized_new ∈ st.normSet then { st with skipped := st.skipped + 1 }
  else
    let base_name := derive_library_name path
    let lib_name := make_unique_name base_name st.used
    { libs := alSet st.libs lib_name (.vStr (format_path use_env username path)),
      normSet := st.normSet ++ [normalized_new],
      used := st.used ++ [lib_name],
      added := st.added + 1,
      skipped := st.skipped }

/-- The normalised string values of a table (the initial
`existing_paths_normalized` set of `_merge_library_paths`). -/
def normValsOf (username : String) (t : Table) : List String :=
  t.filterMap
    (fun p => match p.2 with
      | .vStr s => some (normalize_path_for_comparison username s)
      | _ => none)

/-- `ConfigExtender._merge_library_paths`. -/
def merge_library_paths (use_env : Bool) (username : String)
    (existing_libraries : Table) (new_paths : List String) : Table × Nat × Nat :=
  let init : LibMergeState :=
    { libs := existing_libraries,
      normSet := normValsOf username existing_libraries,
      used := existing_libraries.map Prod.fst,
      added := 0, skipped := 0 }
  let fin := new_paths.foldl (merge_library_step use_env username) init
  (fin.libs, fin.added, fin.skipped)

/-- `ConfigExtender._merge_namespaces`. -/
def merge_namespaces (existing_ns : Table) (new_ns : List String) : Table × Nat :=
  if new_ns.isEmpty then (existing_ns, 0)
  else
    let existing_prefixes := asStrList (alGet existing_ns "prefixes")
    let fin := new_ns.foldl
      (fun (st : List String × List String × Nat) ns =>
        if lowerStr ns ∈ st.2.1 then st
        else (st.1 ++ [ns], st.2.1 ++ [lowerStr ns], st.2.2 + 1))
      (existing_prefixes, existing_prefixes.map lowerStr, 0)
    (alSet existing_ns "prefixes" (.vList (fin.1.map .vStr)), fin.2.2)

/-- `ConfigExtender._merge_aliases`. -/
def merge_aliases (existing_aliases : Table) (new_aliases : List (String × String)) :
    Table × Nat :=
  if new_aliases.isEmpty then (existing_aliases, 0)
  else
    new_aliases.foldl
      (fun (st : Table × Nat) pr =>
        if alHasKey st.1 pr.1 then st
        else (alSet st.1 pr.1 (.vStr pr.2), st.2 + 1))
      (existing_aliases, 0)

/-- `ConfigExtender._merge_flags`. -/
def merge_flags (existing_flags : Table) (new_flags : List String) : Table × Nat :=
  if new_flags.isEmpty then (existing_flags, 0)
  else
    let l1 := asStrList (alGet existing_flags "flags")
    let existing_list := if l1.isEmpty then asStrList (alGet existing_flags "common") else l1
    let fin := new_flags.foldl
      (fun (st : List String × List String × Nat) flag =>
        if lowerStr flag ∈ st.2.1 then st
        else (st.1 ++ [flag], st.2.1 ++ [lowerStr flag], st.2.2 + 1))
      (existing_list, existing_list.map lowerStr, 0)
    if alHasKey existing_flags "common" then
      (alSet existing_flags "common" (.vList (fin.1.map .vStr)), fin.2.2)
    else
      (alSet existing_flags "flags" (.vList (fin.1.map .vStr)), fin.2.2)

/-- `ConfigExtender._merge_linux_sdk`. -/
def merge_linux_sdk (use_env : Bool) (username : String)
    (existing_sdk : Table) (info : BuildLogInfo) : Table × Nat :=
  let s1 :=
    match info.sdk_sysroot with
    | some sysroot =>
      if !(alHasKey existing_sdk "sysroot") then
        (alSet existing_sdk "sysroot" (.vStr (format_path use_env username sysroot)), 1)
      else (existing_sdk, 0)
    | none => (existing_sdk, 0)
  if info.sdk_libpaths.isEmpty then s1
  else
    let existing_libpaths := asStrList (alGet s1.1 "libpaths")
    let fin := info.sdk_libpaths.foldl
      (fun (st : List String × List String × Nat) path =>
        if normalize_path_for_comparison username path ∈ st.2.1 then st
        else (st.1 ++ [format_path use_env username path],
          st.2.1 ++ [normalize_path_for_comparison username path], st.2.2 + 1))
      (existing_libpaths,
        existing_libpaths.map (normalize_path_for_comparison username), 0)
    (alSet s1.1 "libpaths" (.vList (fin.1.map .vStr)), s1.2 + fin.2.2)

/-- `MergeStatistics` (the fields `extend_from_build_log` reports). -/
structure MergeStatistics where
  paths_added : Nat := 0
  paths_skipped : Nat := 0
  settings_updated : List (String × Nat) := []
  deriving Repr, DecidableEq

/-- The third-party library paths of a build log: search paths not under
the compiler root (case-insensitive substring test, as in the source). -/
def library_paths_of (info : BuildLogInfo) : List String :=
  let compiler_root := parentDir (parentDir info.compiler_path)
  let compiler_root_str := lowerStr compiler_root
  info.search_paths.filter
    (fun p => !containsSubL compiler_root_str.data (lowerL p.data))

/-- One "ensure required section exists" line of `_merge_configs`:
`if k not in t: t[k] = {}`. -/
def ensureKey (t : Table) (k : String) : Table :=
  if !alHasKey t k then alSet t k (.vTable []) else t

/-- `ConfigExtender._merge_configs`: ensure the section skeleton, then
merge each part, assembling the functional counterpart of the in-place
updates. -/
def merge_configs (use_env : Bool) (username : String)
    (existing : Table) (info : BuildLogInfo) : Table × MergeStatistics :=
  let merged := ensureKey existing "paths"
  let paths0 := ensureKey (ensureKey (asTable (alGet merged "paths")) "system") "libraries"
  let merged := ensureKey merged "compiler"
  let comp0 := ensureKey (ensureKey (ensureKey (asTable (alGet merged "compiler"))
    "namespaces") "aliases") "flags"
  -- merge system paths
  let sys := merge_system_paths use_env username (asTable (alGet paths0 "system")) info
  let stats : MergeStatistics :=
    { paths_added := sys.2.1, paths_skipped := sys.2.2,
      settings_updated :=
        if sys.2.1 > 0 then [("paths.system", sys.2.1)] else [] }
  -- categorise and merge library paths
  let lib := merge_library_paths use_env username
    (asTable (alGet paths0 "libraries")) (library_paths_of info)
  let stats :=
    { stats with
      paths_added := stats.paths_added + lib.2.1,
      paths_skipped := stats.paths_skipped + lib.2.2,
      settings_updated := stats.settings_updated ++
        (if lib.2.1 > 0 then [("paths.libraries", lib.2.1)] else []) }
  -- merge namespaces, aliases, flags
  let ns := merge_namespaces (asTable (alGet comp0 "namespaces")) info.namespace_prefixes
  let stats :=
    { stats with settings_updated := stats.settings_updated ++
        (if ns.2 > 0 then [("compiler.namespaces", ns.2)] else []) }
  let al := merge_aliases (asTable (alGet comp0 "aliases")) info.unit_aliases
  let stats :=
    { stats with settings_updated := stats.settings_updated ++
        (if al.2 > 0 then [("compiler.aliases", al.2)] else []) }
  let fl := merge_flags (asTable (alGet comp0 "flags")) info.compiler_flags
  let stats :=
    { stats with settings_updated := stats.settings_updated ++
        (if fl.2 > 0 then [("compiler.flags", fl.2)] else []) }
  -- reassemble the mutated tables
  let paths1 := alSet (alSet paths0 "system" (.vTable sys.1)) "libraries" (.vTable lib.1)
  let comp1 := alSet (alSet (alSet comp0 "namespaces" (.vTable ns.1))
    "aliases" (.vTable al.1)) "flags" (.vTable fl.1)
  let merged := alSet (alSet merged "paths" (.vTable paths1)) "compiler" (.vTable comp1)
  -- Linux SDK
  if info.sdk_sysroot.isSome || !info.sdk_libpaths.isEmpty then
    let merged := if !alHasKey merged "linux_sdk" then alSet merged "linux_sdk" (.vTable [])
      else merged
    let sdk := merge_linux_sdk use_env username (asTable (alGet merged "linux_sdk")) info
    let stats :=
      { stats with settings_updated := stats.settings_updated ++
          (if sdk.2 > 0 then [("linux_sdk", sdk.2)] else []) }
    (alSet merged "linux_sdk" (.vTable sdk.1), stats)
  else (merged, stats)

/-- Python's `f"{value}"` for the value shapes the generator prints.
Lists and tables are only interpolated for malformed documents; their
Python `repr` output is abbreviated here and not relied upon. -/
def pyFormatVal : TomlVal → String
  | .vStr s => s
  | .vInt n => toString n
  | .vBool b => if b then "True" else "False"
  | .vList _ => "[...]"
  | .vTable _ => "{...}"

/-- `"# " + "=" * 77`. -/
def eqBanner : String := "# " ++ ⟨List.replicate 77 '='⟩

/-- Python `str.title()` (ASCII model): upper-case a letter that follows
a non-letter, lower-case the rest. -/
def pyTitleGo : Bool → List Char → List Char
  | _, [] => []
  | prevAlpha, c :: rest =>
    (if isAsciiLetter c then (if prevAlpha then c.toLower else c.toUpper) else c) ::
      pyTitleGo (isAsciiLetter c) rest

/-- Python `str.title()`. -/
def pyTitle (s : String) : String := ⟨pyTitleGo false s.data⟩

/-- `ConfigExtender._section_to_toml`. -/
def section_to_toml (section_name : String) (section_dict : Table) : List String :=
  [eqBanner, "# " ++ pyTitle section_name ++ " Configuration", eqBanner,
   "[" ++ section_name ++ "]"] ++
  section_dict.filterMap
    (fun kv =>
      match kv.2 with
      | .vStr s => some (kv.1 ++ " = \"" ++ s ++ "\"")
      | .vBool b => some (kv.1 ++ " = " ++ (if b then "true" else "false"))
      | .vInt n => some (kv.1 ++ " = " ++ toString n)
      | .vList xs =>
        if xs.all (fun v => match v with | .vStr _ => true | _ => false) then
          some (kv.1 ++ " = [" ++
            joinWith ", " (xs.map (fun v => "\"" ++ pyFormatVal v ++ "\"")) ++ "]")
        else some (kv.1 ++ " = " ++ pyFormatVal (.vList xs))
      | .vTable _ => none)

/-- `ConfigExtender._generate_toml`: serialise the fixed set of known
sections of the merged document. -/
def generate_toml (config : Table) : String :=
  let lines : List String :=
    ["# Delphi Build MCP Server Configuration", "#", "# Extended configuration file"]
  let lines := lines ++
    (if alHasKey config "delphi" then
      let version :=
        match alGet (asTable (alGet config "delphi")) "version" with
        | some v => pyFormatVal v
        | none => "unknown"
      ["# Delphi Version: " ++ version]
    else [])
  let lines := lines ++ ["#", ""]
  let lines := lines ++
    (if alHasKey config "delphi" then
      section_to_toml "delphi" (asTable (alGet config "delphi")) ++ [""]
    else [])
  let lines := lines ++
    (if alHasKey config "paths" && alHasKey (asTable (alGet config "paths")) "system" then
      [eqBanner, "# System Library Paths", eqBanner, "[paths.system]"] ++
        (asTable (alGet (asTable (alGet config "paths")) "system")).map
          (fun kv => kv.1 ++ " = \"" ++ pyFormatVal kv.2 ++ "\"") ++ [""]
    else [])
  let lines := lines ++
    (if alHasKey config "paths" && alHasKey (asTable (alGet config "paths")) "libraries" then
      [eqBanner, "# Third-Party Library Paths", eqBanner, "[paths.libraries]"] ++
        (asTable (alGet (asTable (alGet config "paths")) "libraries")).map
          (fun kv => kv.1 ++ " = \"" ++ pyFormatVal kv.2 ++ "\"") ++ [""]
    else [])
  let lines := lines ++
    (if alHasKey config "compiler" && alHasKey (asTable (alGet config "compiler")) "flags" then
      [eqBanner, "# Compiler Flags", eqBanner, "[compiler.flags]"] ++
        (asTable (alGet (asTable (alGet config "compiler")) "flags")).filterMap
          (fun kv =>
            match kv.2 with
            | .vList xs =>
              some (kv.1 ++ " = [" ++
                joinWith ", " (xs.map (fun v => "\"" ++ pyFormatVal v ++ "\"")) ++ "]")
            | .vTable _ => none  -- `pass  # Handle below` (never handled)
            | v => some (kv.1 ++ " = \"" ++ pyFormatVal v ++ "\"")) ++ [""]
    else [])
  let lines := lines ++
    (if alHasKey config "compiler" &&
        alHasKey (asTable (alGet config "compiler")) "namespaces" then
      [eqBanner, "# Namespace Prefixes", eqBanner, "[compiler.namespaces]"] ++
        (let ns_section := asTable (alGet (asTable (alGet config "compiler")) "namespaces")
         if alHasKey ns_section "prefixes" then
           [("prefixes = [" ++
             joinWith ", "
               ((match alGet ns_section "prefixes" with
                 | some (.vList xs) => xs
                 | _ => []).map (fun v => "\"" ++ pyFormatVal v ++ "\"")) ++ "]")]
         else []) ++ [""]
    else [])
  let lines := lines ++
    (if alHasKey config "compiler" && alHasKey (asTable (alGet config "compiler")) "aliases" then
      [eqBanner, "# Unit Aliases", eqBanner, "[compiler.aliases]"] ++
        (asTable (alGet (asTable (alGet config "compiler")) "aliases")).map
          (fun kv => "\"" ++ kv.1 ++ "\" = \"" ++ pyFormatVal kv.2 ++ "\"") ++ [""]
    else [])
  let lines := lines ++
    (if alHasKey config "linux_sdk" then
      let sdk_section := asTable (alGet config "linux_sdk")
      [eqBanner, "# Linux SDK Configuration", eqBanner, "[linux_sdk]"] ++
        (match alGet sdk_section "sysroot" with
         | some v => ["sysroot = \"" ++ pyFormatVal v ++ "\""]
         | none => []) ++
        (if alHasKey sdk_section "libpaths" then
          ["libpaths = ["] ++
            (match alGet sdk_section "libpaths" with
             | some (.vList xs) => xs
             | _ => []).map (fun v => "    \"" ++ pyFormatVal v ++ "\",") ++ ["]"]
        else []) ++ [""]
    else [])
  joinWith "\n" lines

/-- The write step of `extend_from_build_log`: the document written to
the output path (file I/O aside). -/
def extend_output (use_env : Bool) (username : String)
    (existing : Table) (info : BuildLogInfo) : String :=
  generate_toml (merge_configs use_env username existing info).1

/-- The `[paths.system]` table of a document. -/
def systemOf (c : Table) : Table :=
  asTable (alGet (asTable (alGet c "paths")) "system")

/-- The `[paths.libraries]` table of a document. -/
def librariesOf (c : Table) : Table :=
  asTable (alGet (asTable (alGet c "paths")) "libraries")

/-- The `[compiler.aliases]` table of a document. -/
def aliasesOf (c : Table) : Table :=
  asTable (alGet (asTable (alGet c "compiler")) "aliases")

/-- The `[compiler.namespaces]` table of a document. -/
def namespacesOf (c : Table) : Table :=
  asTable (alGet (asTable (alGet c "compiler")) "namespaces")

/-- The `compiler.namespaces.prefixes` list of a document. -/
def prefixesOf (c : Table) : List String :=
  asStrList (alGet (namespacesOf c) "prefixes")

/-- A small parsed build log: one third-party search path, no extras. -/
def infoC3 : BuildLogInfo :=
  { compiler_path := "c:\\delphi\\bin\\dcc32.exe", delphi_version := "unknown",
    platform := .win32, build_config := "Release",
    search_paths := ["c:\\libs\\a"], namespace_prefixes := [],
    unit_aliases := [], compiler_flags := [] }

/-- An existing document holding a section the generator does not know. -/
def cfgC3 : Table := [("custom", .vTable [("mykey", .vStr "myval")])]

/-- An existing document with entries in every merged section. -/
def cfgC3w : Table :=
  [("paths", .vTable
      [("system", .vTable [("lib_old", .vStr "c:/old")]),
       ("libraries", .vTable [("mylib", .vStr "c:/3rd/mylib")])]),
   ("compiler", .vTable
      [("namespaces", .vTable [("prefixes", .vList [.vStr "Sys"])]),
       ("aliases", .vTable [("WinTypes", .vStr "Windows")])])]

/-- A build log whose search path carries the `½S` mojibake that
`_format_path` repairs, so formatting changes its normal form. -/
def infoC6 : BuildLogInfo :=
  { infoC3 with search_paths := ["c:\\3rd½SUSERNAME%\\lib"] }

end ConfigExtender

/-! ## Theorems -/

namespace OutputParser

theorem ciPrefixSplit_lower :
    ∀ (w cs s r : List Char), ciPrefixSplit w cs = some (s, r) →
      s.map Char.toLower = w.map Char.toLower := by
  intro w
  induction w with
  | nil =>
    intro cs s r h
    simp only [ciPrefixSplit, Option.some.injEq, Prod.mk.injEq] at h
    simp [← h.1]
  | cons a as ih =>
    intro cs s r h
    cases cs with
    | nil => simp [ciPrefixSplit] at h
    | cons c cs' =>
      simp only [ciPrefixSplit] at h
      by_cases hc : c.toLower = a.toLower
      · rw [if_pos hc] at h
        cases hrec : ciPrefixSplit as cs' with
        | none => rw [hrec] at h; simp at h
        | some pr =>
          rw [hrec] at h
          obtain ⟨s', r'⟩ := pr
          simp only [Option.some.injEq, Prod.mk.injEq] at h
          obtain ⟨hs, _⟩ := h
          subst hs
          simpa [hc] using ih cs' s' r' hrec
      · rw [if_neg hc] at h; simp at h

theorem tryWords_lower :
    ∀ (ws : List (List Char)) (cs s r : List Char), tryWords ws cs = some (s, r) →
      ∃ w ∈ ws, s.map Char.toLower = w.map Char.toLower := by
  intro ws
  induction ws with
  | nil => intro cs s r h; simp [tryWords] at h
  | cons w ws' ih =>
    intro cs s r h
    simp only [tryWords] at h
    cases hw : ciPrefixSplit w cs with
    | some pr =>
      rw [hw] at h
      obtain ⟨s', r'⟩ := pr
      simp only [Option.some.injEq, Prod.mk.injEq] at h
      obtain ⟨hs, _⟩ := h
      subst hs
      exact ⟨w, List.mem_cons_self w ws', ciPrefixSplit_lower w cs s' r' hw⟩
    | none =>
      rw [hw] at h
      obtain ⟨w', hmem, hl⟩ := ih cs s r h
      exact ⟨w', List.mem_cons_of_mem w hmem, hl⟩

theorem matchSeverity_lower (cs s r : List Char)
    (h : matchSeverity cs = some (s, r)) : lowerStr ⟨s⟩ ∈ loweredSeverityWords := by
  obtain ⟨w, hmem, hl⟩ := tryWords_lower severityWords cs s r h
  have hstr : lowerStr ⟨s⟩ = ⟨w.map Char.toLower⟩ := by
    simp only [lowerStr, lowerL]
    exact congrArg String.mk hl
  rw [hstr]
  fin_cases hmem <;> simp [loweredSeverityWords]

theorem attemptFull_severity_lower (g1 cs : List Char) (m : ParsedMsg)
    (h : attemptFull g1 cs = some m) : lowerStr m.severity ∈ loweredSeverityWords := by
  unfold attemptFull at h
  cases h1 : parseLoc cs with
  | none => exact Option.noConfusion (h1 ▸ h)
  | some t =>
    simp only [h1] at h
    obtain ⟨ln, col, rest⟩ := t
    cases h2 : matchSeverity (dropWS rest) with
    | none => simp only [h2] at h; exact Option.noConfusion h
    | some sr =>
      simp only [h2] at h
      obtain ⟨sev, rest2⟩ := sr
      cases h3 : matchSevTail rest2 with
      | none => simp only [h3] at h; exact Option.noConfusion h
      | some cm =>
        simp only [h3] at h
        obtain ⟨code, msg⟩ := cm
        simp only [Option.some.injEq] at h
        subst h
        exact matchSeverity_lower _ _ _ h2

theorem matchFullGo_severity_lower :
    ∀ (cs g1rev : List Char) (m : ParsedMsg), matchFullGo g1rev cs = some m →
      lowerStr m.severity ∈ loweredSeverityWords := by
  intro cs
  induction cs with
  | nil => intro g1rev m h; simp [matchFullGo] at h
  | cons c rest ih =>
    intro g1rev m h
    simp only [matchFullGo] at h
    cases ha : attemptFull (c :: g1rev).reverse rest with
    | some m' =>
      rw [ha] at h
      simp only [Option.some.injEq] at h
      subst h
      exact attemptFull_severity_lower _ _ _ ha
    | none =>
      rw [ha] at h
      exact ih (c :: g1rev) m h

theorem matchSimple_severity_lower (cs : List Char) (m : ParsedMsg)
    (h : matchSimple cs = some m) : lowerStr m.severity ∈ loweredSeverityWords := by
  unfold matchSimple at h
  cases h1 : matchSeverity cs with
  | none => exact Option.noConfusion (h1 ▸ h)
  | some sr =>
    simp only [h1] at h
    obtain ⟨sev, rest⟩ := sr
    cases h2 : matchSevTail rest with
    | none => simp only [h2] at h; exact Option.noConfusion h
    | some cm =>
      simp only [h2] at h
      obtain ⟨code, msg⟩ := cm
      simp only [Option.some.injEq] at h
      subst h
      exact matchSeverity_lower _ _ _ h1

theorem severity_covered (sev : String) (ec : Option String)
    (h : lowerStr sev ∈ loweredSeverityWords) :
    is_warning sev ec || is_hint sev ec || is_error sev ec = true := by
  simp only [loweredSeverityWords, List.mem_cons, List.not_mem_nil, or_false] at h
  rcases h with h | h | h | h | h | h | h | h <;>
    simp [is_warning, is_hint, is_error, h]

theorem process_message_sum (st : PState) (sev : String) (ec : Option String)
    (msg fp : String) (ln col : Nat) (h : lowerStr sev ∈ loweredSeverityWords) :
    sumOf (process_message st sev ec msg fp ln col) = sumOf st + 1 := by
  have hcov := severity_covered sev (ec.map upperStr) h
  unfold process_message
  by_cases hw : is_warning sev (ec.map upperStr)
  · simp [hw, sumOf]; omega
  · by_cases hh : is_hint sev (ec.map upperStr)
    · simp [hw, hh, sumOf]; omega
    · by_cases he : is_error sev (ec.map upperStr)
      · simp [hw, hh, he, sumOf]; omega
      · simp [hw, hh, he] at hcov

theorem parse_line_sum (st : PState) (l : List Char) :
    sumOf (parse_line st l) =
      sumOf st + (if (matchFull l).isSome || (matchSimple l).isSome then 1 else 0) := by
  unfold parse_line
  cases hf : matchFull l with
  | some m =>
    simp only [hf, Option.isSome_some, Bool.true_or, if_pos]
    exact process_message_sum st _ _ _ _ _ _ (matchFullGo_severity_lower l [] m hf)
  | none =>
    cases hs : matchSimple l with
    | some m =>
      simp only [hf, hs, Option.isSome_none, Option.isSome_some, Bool.false_or, if_pos]
      exact process_message_sum st _ _ _ _ _ _ (matchSimple_severity_lower l m hs)
    | none =>
      simp only [hf, hs, Option.isSome_none, Bool.or_self, Bool.false_eq_true, if_neg,
        Nat.add_zero]
      cases searchLinesFrom l <;> simp [sumOf]

theorem parse_fold_sum (ls : List (List Char)) :
    ∀ st : PState,
      sumOf (ls.foldl
        (fun st l => let l' := pyStrip l; if l'.isEmpty then st else parse_line st l') st) =
      sumOf st + ls.countP classified := by
  induction ls with
  | nil => intro st; simp
  | cons l ls' ih =>
    intro st
    simp only [List.foldl_cons, List.countP_cons]
    rw [ih]
    by_cases he : (pyStrip l).isEmpty
    · simp [he, classified]
    · simp only [he, if_neg, Bool.false_eq_true, not_false_iff]
      rw [parse_line_sum]
      simp only [classified, he]
      by_cases hm : (matchFull (pyStrip l)).isSome || (matchSimple (pyStrip l)).isSome
      · simp [hm]; omega
      · simp [hm]

/-- C1 (counterexample): a compiler message whose severity word is the
warning word `Warnung` but whose explicit code is `E2003` is NOT kept in
the returned diagnostic list; it is filtered and counted as a warning, so
the severity word, not the code prefix, decides the classification. -/
theorem c1_counterexample :
    (parse "Unit1.pas(42,15) Warnung: E2003 Undeklarierter Bezeichner").1 = [] ∧
      (parse "Unit1.pas(42,15) Warnung: E2003 Undeklarierter Bezeichner").2.warnings_filtered
        = 1 := by
  constructor <;> rfl

/-- C1 (amended): when the severity word is a warning word (`Warning` or
`Warnung` in any case), `_process_message` classifies the message as a
warning — incrementing the warnings-filtered counter and leaving the error
list unchanged — regardless of any accompanying error code; an `E`-prefixed
code does not override a warning severity word. -/
theorem c1_amended (st : PState) (severity : String) (code : Option String)
    (msg fp : String) (ln col : Nat)
    (h : lowerStr severity = "warning" ∨ lowerStr severity = "warnung") :
    process_message st severity code msg fp ln col =
      { st with statistics.warnings_filtered := st.statistics.warnings_filtered + 1 } := by
  unfold process_message
  have hw : is_warning severity (code.map upperStr) = true := by
    unfold is_warning
    rcases h with h | h <;> simp [h]
  simp [hw]

theorem c1_amended_witness :
    (lowerStr "Warnung" = "warning" ∨ lowerStr "Warnung" = "warnung") ∧
      process_message {} "Warnung" (some "E2003") "Undeklarierter Bezeichner" "Unit1.pas" 42 15
        = { statistics := { warnings_filtered := 1 } } :=
  ⟨Or.inr (by decide),
    c1_amended {} "Warnung" (some "E2003") "Undeklarierter Bezeichner" "Unit1.pas" 42 15
      (Or.inr (by decide))⟩

/-- C5: for every compiler output text, severity filtering is exhaustive:
the number of kept diagnostics plus the warnings-filtered counter plus the
hints-filtered counter equals the number of lines classified as diagnostic
messages by the two message patterns. -/
theorem exhaustive_severity_filtering (output : String) :
    (parse output).1.length + (parse output).2.warnings_filtered +
      (parse output).2.hints_filtered = (splitNl output.data).countP classified := by
  have h := parse_fold_sum (splitNl output.data) {}
  simpa [parse, sumOf] using h

end OutputParser

namespace DelphiCompiler

theorem dedupGo_sublist : ∀ (l seen : List String), (dedupGo seen l).Sublist l := by
  intro l
  induction l with
  | nil => intro seen; simp [dedupGo]
  | cons p rest ih =>
    intro seen
    simp only [dedupGo]
    by_cases h : normPath p ∈ seen
    · simp only [if_pos h]
      exact (ih seen).cons p
    · simp only [if_neg h]
      exact (ih _).cons₂ p

theorem dedupGo_nodup_excl : ∀ (l seen : List String),
    ((dedupGo seen l).map normPath).Nodup ∧ ∀ q ∈ dedupGo seen l, normPath q ∉ seen := by
  intro l
  induction l with
  | nil => intro seen; simp [dedupGo]
  | cons p rest ih =>
    intro seen
    simp only [dedupGo]
    by_cases h : normPath p ∈ seen
    · simp only [if_pos h]; exact ih seen
    · simp only [if_neg h]
      obtain ⟨hnd, hex⟩ := ih (normPath p :: seen)
      refine ⟨?_, ?_⟩
      · simp only [List.map_cons, List.nodup_cons]
        refine ⟨fun hc => ?_, hnd⟩
        obtain ⟨q, hq, hqe⟩ := List.mem_map.mp hc
        exact hex q hq (hqe ▸ List.mem_cons_self _ _)
      · intro q hq
        rcases List.mem_cons.mp hq with rfl | hq'
        · exact h
        · exact fun hs => hex q hq' (List.mem_cons_of_mem _ hs)

theorem dedupGo_complete : ∀ (l seen : List String) (p : String), p ∈ l →
    normPath p ∈ seen ∨ normPath p ∈ (dedupGo seen l).map normPath := by
  intro l
  induction l with
  | nil => intro seen p hp; simp at hp
  | cons q rest ih =>
    intro seen p hp
    simp only [dedupGo]
    by_cases h : normPath q ∈ seen
    · simp only [if_pos h]
      rcases List.mem_cons.mp hp with rfl | hp'
      · exact Or.inl h
      · exact ih seen p hp'
    · simp only [if_neg h]
      rcases List.mem_cons.mp hp with rfl | hp'
      · exact Or.inr (by simp)
      · rcases ih (normPath q :: seen) p hp' with hs | hd
        · rcases List.mem_cons.mp hs with he | hs'
          · exact Or.inr (by simp [he])
          · exact Or.inl hs'
        · exact Or.inr (by simp [hd])

/-- C8: `_deduplicate_paths` compares paths case-insensitively with
separators normalised, keeps first occurrences in first-seen order (the
result is a sublist of the input, no two kept entries share a normal
form, and every input path is represented), and on the specification's
example `dedup(["C:\A", "c:/a", "C:\B"])` returns `["C:\A", "C:\B"]`. -/
theorem c8_dedup_case_insensitive (paths : List String) (p : String) (hp : p ∈ paths) :
    deduplicate_paths ["C:\\A", "c:/a", "C:\\B"] = ["C:\\A", "C:\\B"] ∧
      (deduplicate_paths paths).Sublist paths ∧
      ((deduplicate_paths paths).map normPath).Nodup ∧
      normPath p ∈ (deduplicate_paths paths).map normPath := by
  refine ⟨by decide, dedupGo_sublist paths [], (dedupGo_nodup_excl paths []).1, ?_⟩
  rcases dedupGo_complete paths [] p hp with hs | hd
  · simp at hs
  · exact hd

theorem c8_dedup_case_insensitive_witness :
    ("c:/a" ∈ (["C:\\A", "c:/a", "C:\\B"] : List String)) ∧
      normPath "c:/a" ∈
        (deduplicate_paths ["C:\\A", "c:/a", "C:\\B"]).map normPath :=
  ⟨by decide,
    (c8_dedup_case_insensitive ["C:\\A", "c:/a", "C:\\B"] "c:/a" (by decide)).2.2.2⟩

/-- C4 (counterexample): the claim that a flag token never appears twice
in a synthesized command fails — with caller-supplied additional flag
`-Q` and an otherwise empty configuration, the command contains the token
`-Q` twice (the always-added quiet flag plus the verbatim extra flag). -/
theorem c4_counterexample :
    (build_command "dcc32.exe" "MyApp.dpr" none false [] ["-Q"] "Win32" {}).count "-Q"
      = 2 := by decide

theorem addDprojFlags_nodup : ∀ (flags cmd : List String),
    cmd.Nodup → (addDprojFlags cmd flags).Nodup := by
  intro flags
  induction flags with
  | nil => intro cmd h; exact h
  | cons f rest ih =>
    intro cmd h
    simp only [addDprojFlags]
    by_cases hf : f ∈ cmd
    · simp only [if_pos hf]; exact ih cmd h
    · simp only [if_neg hf]
      refine ih _ ?_
      simp [List.nodup_append, h, hf]

/-- C4 (amended): duplicate avoidance in `_build_command` applies to the
project-descriptor flags — each is appended only when not already present,
so that step preserves freedom from duplicates — and the `-B`/`-Q` skip
list keeps the configuration baseline from re-emitting those managed
flags; caller-supplied additional flags, by contrast, are appended
verbatim and may duplicate an existing token. -/
theorem c4_amended (cmd flags config_flags : List String) (h : cmd.Nodup) :
    (addDprojFlags cmd flags).Nodup ∧
      "-B" ∉ config_flags.filter (fun f => !skip_flags.contains f) ∧
      "-Q" ∉ config_flags.filter (fun f => !skip_flags.contains f) := by
  refine ⟨addDprojFlags_nodup flags cmd h, fun hc => ?_, fun hc => ?_⟩ <;>
    simpa [skip_flags] using List.of_mem_filter hc

theorem c4_amended_witness :
    (["dcc32.exe", "-W"] : List String).Nodup ∧
      ((addDprojFlags ["dcc32.exe", "-W"] ["-W", "-X"]).Nodup ∧
        "-B" ∉ (["-B", "-Q", "-X"] : List String).filter (fun f => !skip_flags.contains f) ∧
        "-Q" ∉ (["-B", "-Q", "-X"] : List String).filter (fun f => !skip_flags.contains f)) :=
  ⟨by decide, c4_amended ["dcc32.exe", "-W"] ["-W", "-X"] ["-B", "-Q", "-X"] (by decide)⟩

theorem execute_compiler_timeout_rsp (command : List String) :
    (execute_compiler command .timedOut).responseFileExists
      = decide ((joinWith " " command).length > 8000) := rfl

theorem execute_compiler_spawn_rsp (command : List String) (msg : String) :
    (execute_compiler command (.spawnFailure msg)).responseFileExists
      = decide ((joinWith " " command).length > 8000) := rfl

/-- C2 (counterexample): when the joined command line exceeds the 8000
character threshold and the compiler process times out, `_execute_compiler`
returns through the `except subprocess.TimeoutExpired` clause without
unlinking the response file, so the file still exists afterwards. -/
theorem c2_counterexample :
    (execute_compiler [⟨List.replicate 8001 'a'⟩] .timedOut).responseFileExists = true := by
  rw [execute_compiler_timeout_rsp]
  have hj : joinWith " " [(⟨List.replicate 8001 'a'⟩ : String)]
      = ⟨List.replicate 8001 'a'⟩ := rfl
  rw [hj]
  have hlen : (⟨List.replicate 8001 'a'⟩ : String).length = 8001 := by
    show (List.replicate 8001 'a').length = 8001
    rw [List.length_replicate]
  rw [hlen]
  decide

/-- C2 (amended): the response file is removed whenever the compiler
process runs to completion (any exit code, success or failure); on a
timeout or a spawn failure the cleanup is skipped, so the response file
remains on disk exactly when one was created (joined command line longer
than 8000 characters). -/
theorem c2_amended (command : List String) (stdout stderr : String) (code : Int)
    (msg : String) :
    (execute_compiler command (.completed stdout stderr code)).responseFileExists = false ∧
      (execute_compiler command .timedOut).responseFileExists
        = decide ((joinWith " " command).length > 8000) ∧
      (execute_compiler command (.spawnFailure msg)).responseFileExists
        = decide ((joinWith " " command).length > 8000) :=
  ⟨rfl, execute_compiler_timeout_rsp command, execute_compiler_spawn_rsp command msg⟩

/-- C7: a compiler-process timeout and a process-spawn failure are not
propagated as exceptions: `_execute_compiler` returns the failure text
with exit code 1, and the compilation result built from it has
`success = false` and carries that text as its output. -/
theorem c7_failures_become_results (command : List String) (msg : String) :
    (execute_compiler command .timedOut).output
        = "Compilation timed out after 5 minutes" ∧
      (compile_result (execute_compiler command .timedOut)).success = false ∧
      (execute_compiler command (.spawnFailure msg)).output
        = "Compiler execution failed: " ++ msg ∧
      (compile_result (execute_compiler command (.spawnFailure msg))).success = false := by
  refine ⟨rfl, ?_, rfl, ?_⟩ <;> simp [compile_result, execute_compiler]

end DelphiCompiler

namespace PathUtils

theorem getLast?_cons_ne {α : Type} (a : α) (l : List α) (h : l ≠ []) :
    (a :: l).getLast? = l.getLast? := by
  cases l with
  | nil => exact absurd rfl h
  | cons b t => exact List.getLast?_cons_cons

theorem dropLast_cons_ne {α : Type} (a : α) (l : List α) (h : l ≠ []) :
    (a :: l).dropLast = a :: l.dropLast := by
  cases l with
  | nil => exact absurd rfl h
  | cons b t => rfl

theorem mem_of_getLast_nl (l : List Char) (h : l.getLast? = some '\n') : '\n' ∈ l := by
  rcases List.eq_nil_or_concat l with rfl | ⟨l', a, rfl⟩
  · simp at h
  · rw [List.concat_eq_append, List.getLast?_concat] at h
    simp only [Option.some.injEq] at h
    subst h
    simp [List.concat_eq_append]

theorem count_nl_one_iff (l : List Char) (h : l.getLast? = some '\n') :
    l.count '\n' = 1 ↔ '\n' ∉ l.dropLast := by
  rcases List.eq_nil_or_concat l with rfl | ⟨l', a, rfl⟩
  · simp at h
  · rw [List.concat_eq_append] at h ⊢
    rw [List.getLast?_concat] at h
    simp only [Option.some.injEq] at h
    subst h
    rw [List.dropLast_concat, List.count_append, ← List.count_eq_zero]
    simp

theorem wslMatch_eq (d : Char) (rest : List Char) :
    wslMatch ('/' :: 'm' :: 'n' :: 't' :: '/' :: d :: rest) =
      (if isAsciiLetter d ∧ (core rest = [] ∨ (core rest).head? = some '/') ∧
          '\n' ∉ core rest then
        some (d, core rest)
      else none) := by
  by_cases hd : isAsciiLetter d
  · cases rest with
    | nil => simp [wslMatch, core, hd]
    | cons c r2 =>
      by_cases hc : c = '\n'
      · subst hc
        cases r2 with
        | nil => simp [wslMatch, core, hd]
        | cons c2 r3 =>
          have hne : (c2 :: r3 : List Char) ≠ [] := by simp
          have hmem : '\n' ∈ core ('\n' :: c2 :: r3) := by
            unfold core
            rw [getLast?_cons_ne _ _ hne]
            by_cases hl : (c2 :: r3).getLast? = some '\n'
            · rw [if_pos hl, dropLast_cons_ne _ _ hne]
              exact List.mem_cons_self _ _
            · rw [if_neg hl]
              exact List.mem_cons_self _ _
          rw [if_neg (by simp [hmem])]
          simp [wslMatch, hd]
      · by_cases hs : c = '/'
        · subst hs
          cases r2 with
          | nil => simp [wslMatch, core, hd]
          | cons c2 r3 =>
            have hne : (c2 :: r3 : List Char) ≠ [] := by simp
            have hcore : core ('/' :: c2 :: r3) =
                (if (c2 :: r3).getLast? = some '\n'
                 then '/' :: (c2 :: r3).dropLast else '/' :: c2 :: r3) := by
              unfold core
              rw [getLast?_cons_ne _ _ hne]
              by_cases hl : (c2 :: r3).getLast? = some '\n'
              · rw [if_pos hl, if_pos hl, dropLast_cons_ne _ _ hne]
              · rw [if_neg hl, if_neg hl]
            by_cases hl : (c2 :: r3).getLast? = some '\n'
            · rw [if_pos hl] at hcore
              have hin : '\n' ∈ (c2 :: r3) := mem_of_getLast_nl _ hl
              by_cases hcount : (c2 :: r3).count '\n' = 1
              · have hnin : '\n' ∉ (c2 :: r3).dropLast :=
                  (count_nl_one_iff _ hl).mp hcount
                rw [if_pos (by
                  refine ⟨hd, Or.inr ?_, ?_⟩
                  · rw [hcore]; rfl
                  · rw [hcore]
                    intro hx
                    rcases List.mem_cons.mp hx with hx | hx
                    · exact absurd hx.symm (by decide)
                    · exact hnin hx)]
                simp only [wslMatch, if_pos hd]
                rw [if_neg (not_not_intro hin), if_pos ⟨hl, hcount⟩, hcore]
              · have hnin : '\n' ∈ (c2 :: r3).dropLast := by
                  by_contra hno
                  exact hcount ((count_nl_one_iff _ hl).mpr hno)
                rw [if_neg (by
                  rintro ⟨-, -, hni⟩
                  rw [hcore] at hni
                  exact hni (List.mem_cons_of_mem _ hnin))]
                simp only [wslMatch, if_pos hd]
                rw [if_neg (not_not_intro hin),
                  if_neg (fun hx => hcount hx.2)]
            · rw [if_neg hl] at hcore
              by_cases hin : '\n' ∈ (c2 :: r3)
              · rw [if_neg (by
                  rintro ⟨-, -, hni⟩
                  rw [hcore] at hni
                  exact hni (List.mem_cons_of_mem _ hin))]
                simp only [wslMatch, if_pos hd]
                rw [if_neg (not_not_intro hin),
                  if_neg (fun hx => hl hx.1)]
              · rw [if_pos (by
                  refine ⟨hd, Or.inr ?_, ?_⟩
                  · rw [hcore]; rfl
                  · rw [hcore]
                    intro hx
                    rcases List.mem_cons.mp hx with hx | hx
                    · exact absurd hx.symm (by decide)
                    · exact hin hx)]
                simp only [wslMatch, if_pos hd]
                rw [if_pos hin, hcore]
        · have hcorehead : (core (c :: r2)).head? = some c := by
            unfold core
            cases r2 with
            | nil =>
              have h1 : ([c] : List Char).getLast? = some c := rfl
              rw [h1]
              rw [if_neg (by simp [Option.some.injEq, hc])]
              rfl
            | cons c2 r3 =>
              have hne : (c2 :: r3 : List Char) ≠ [] := by simp
              rw [getLast?_cons_ne _ _ hne]
              by_cases hl : (c2 :: r3).getLast? = some '\n'
              · rw [if_pos hl, dropLast_cons_ne _ _ hne]; rfl
              · rw [if_neg hl]; rfl
          rw [if_neg (by
            rintro ⟨-, hc2, -⟩
            rcases hc2 with hc2 | hc2
            · rw [hc2] at hcorehead; exact absurd hcorehead (by simp)
            · rw [hcorehead] at hc2
              exact hs (by simpa using hc2))]
          cases r2 with
          | nil => simp [wslMatch, hd, hc, hs]
          | cons c2 r3 => simp [wslMatch, hd, hc, hs]
  · rw [if_neg (by simp [hd])]
    simp [wslMatch, hd]

theorem wslMatch_some_shape (cs : List Char) (p : Char × List Char)
    (h : wslMatch cs = some p) :
    ∃ d rest, cs = '/' :: 'm' :: 'n' :: 't' :: '/' :: d :: rest := by
  unfold wslMatch at h
  split at h
  · rename_i d rest
    exact ⟨d, rest, rfl⟩
  · exact absurd h (by simp)

/-- C10 (counterexample): the conversion is not the identity-or-rewrite
map the claim describes — on the string `/mnt/c/a\nb`, which is of the
form `/mnt/<letter>/rest`, the code leaves the input unchanged (Python's
`.` does not match the interior newline) while the claimed rewrite would
produce `C:\a\nb`. -/
theorem c10_counterexample :
    convert_wsl_to_windows_path true "/mnt/c/a\nb" = "/mnt/c/a\nb" ∧
      specConvert true "/mnt/c/a\nb" = "C:\\a\nb" ∧
      convert_wsl_to_windows_path true "/mnt/c/a\nb" ≠ specConvert true "/mnt/c/a\nb" := by
  refine ⟨rfl, rfl, ?_⟩
  decide

theorem specAmended_data (cs : List Char) :
    specConvertAmended true ⟨cs⟩ =
      (match wslMatch cs with
       | none => (⟨cs⟩ : String)
       | some (d, g2) => ⟨d.toUpper :: ':' :: replaceCh '/' '\\' g2⟩) := by
  unfold specConvertAmended
  simp only [Bool.not_true, Bool.false_eq_true, if_false]
  split
  · rename_i d rest
    rw [wslMatch_eq]
    by_cases hcond : isAsciiLetter d = true ∧
        (core rest = [] ∨ (core rest).head? = some '/') ∧ '\n' ∉ core rest
    · rw [if_pos hcond, if_pos hcond]
    · rw [if_neg hcond, if_neg hcond]
  · rename_i hno
    cases hm : wslMatch cs with
    | none => rfl
    | some p =>
      obtain ⟨d, rest, rfl⟩ := wslMatch_some_shape cs p hm
      exact absurd rfl (hno d rest)

/-- C10 (amended): on non-Windows platforms the conversion is the
identity; on Windows it rewrites exactly the strings of the form
`/mnt/<single drive letter>`, optionally followed by `/rest` with `rest`
free of newlines, optionally followed by one final newline (which is
dropped), into the upper-cased letter, a colon, and the suffix with every
forward slash replaced by a backslash; every other string is returned
unchanged. -/
theorem c10_amended (isWindows : Bool) (path_str : String) :
    convert_wsl_to_windows_path isWindows path_str =
      specConvertAmended isWindows path_str := by
  cases isWindows with
  | false => rfl
  | true =>
    obtain ⟨cs⟩ := path_str
    rw [specAmended_data cs]
    rfl

end PathUtils

namespace BuildLogParser

/-- C9: whenever a build-log compiler command parses successfully, the
detected build configuration is `Debug` exactly when the unified command
string contains the substring `\Debug` or `\debug` (case sensitive), and
`Release` otherwise. -/
theorem c9_build_config (command : String) (info : BuildLogInfo)
    (h : parse_compiler_command command = some info) :
    (info.build_config = "Debug" ↔
      (containsSub command "\\Debug" = true ∨ containsSub command "\\debug" = true)) ∧
      (info.build_config = "Release" ↔
        ¬(containsSub command "\\Debug" = true ∨ containsSub command "\\debug" = true)) := by
  unfold parse_compiler_command at h
  cases hs : searchCompiler command.data with
  | none => rw [hs] at h; exact absurd h (by simp)
  | some pathChars =>
    rw [hs] at h
    simp only [Option.some.injEq] at h
    subst h
    simp only [containsSub]
    by_cases hc : (containsSubL "\\Debug".data command.data ||
        containsSubL "\\debug".data command.data) = true
    · rw [if_pos hc]
      rcases Bool.or_eq_true _ _ |>.mp hc with h1 | h1 <;>
        simp [h1]
    · rw [if_neg hc]
      simp only [Bool.or_eq_true, not_or] at hc
      push_neg at hc
      simp [hc.1, hc.2]

theorem c9_build_config_witness :
    ((parse_compiler_command "c:\\d\\dcc32.exe x").getD default).build_config
      = "Release" :=
  (c9_build_config "c:\\d\\dcc32.exe x"
      ((parse_compiler_command "c:\\d\\dcc32.exe x").getD default) rfl).2.mpr
    (by decide)

end BuildLogParser

namespace ConfigExtender

open BuildLogParser (BuildLogInfo lastComponent)

theorem digitsToNat_append (xs : List Char) (c : Char) :
    digitsToNat (xs ++ [c]) = digitsToNat xs * 10 + (c.toNat - '0'.toNat) := by
  unfold digitsToNat
  rw [List.foldl_append]
  rfl

theorem digitChar_val (n : Nat) (h : n < 10) :
    (digitChar n).toNat - '0'.toNat = n := by
  interval_cases n <;> rfl

theorem natReprGo_correct : ∀ fuel n, n < fuel → digitsToNat (natReprGo fuel n) = n := by
  intro fuel
  induction fuel with
  | zero => intro n h; omega
  | succ fuel ih =>
    intro n h
    unfold natReprGo
    by_cases h10 : n < 10
    · rw [if_pos h10]
      show digitsToNat ([] ++ [digitChar n]) = n
      rw [digitsToNat_append, digitChar_val n h10]
      simp [digitsToNat]
    · rw [if_neg h10]
      rw [digitsToNat_append]
      have hdiv : n / 10 < n := Nat.div_lt_self (by omega) (by omega)
      rw [ih (n / 10) (by omega), digitChar_val _ (Nat.mod_lt _ (by omega))]
      omega

theorem natRepr_inj (m n : Nat) (h : natRepr m = natRepr n) : m = n := by
  have hm := natReprGo_correct (m + 1) m (by omega)
  have hn := natReprGo_correct (n + 1) n (by omega)
  have hd : natReprGo (m + 1) m = natReprGo (n + 1) n := congrArg String.data h
  rw [hd] at hm
  omega

theorem cand_inj (base : String) (c c' : Nat)
    (h : base ++ "_" ++ natRepr c = base ++ "_" ++ natRepr c') : c = c' := by
  apply natRepr_inj
  have hd := congrArg String.data h
  simp only [String.data_append] at hd
  exact congrArg String.mk (List.append_cancel_left hd)

theorem make_unique_go_fresh (base : String) :
    ∀ (fuel counter : Nat) (used : List String),
      (∃ i, i < fuel ∧ (base ++ "_" ++ natRepr (counter + i)) ∉ used) →
      make_unique_go base fuel counter used ∉ used := by
  intro fuel
  induction fuel with
  | zero =>
    rintro counter used ⟨i, hi, -⟩
    omega
  | succ fuel ih =>
    rintro counter used ⟨i, hi, hfree⟩
    unfold make_unique_go
    by_cases hc : (base ++ "_" ++ natRepr counter) ∈ used
    · simp only [if_pos hc]
      apply ih
      have hi0 : i ≠ 0 := by
        rintro rfl
        exact hfree hc
      refine ⟨i - 1, by omega, ?_⟩
      have heq : counter + 1 + (i - 1) = counter + i := by omega
      rw [heq]
      exact hfree
    · simp only [if_neg hc]
      exact hc

theorem make_unique_fresh (base : String) (used : List String) :
    make_unique_name base used ∉ used := by
  unfold make_unique_name
  by_cases hb : base ∈ used
  · rw [if_pos hb]
    apply make_unique_go_fresh
    by_contra hall
    push_neg at hall
    have hinj : Function.Injective (fun i : Nat => base ++ "_" ++ natRepr (2 + i)) := by
      intro i j hij
      have := cand_inj base (2 + i) (2 + j) hij
      omega
    have hnd : ((List.range (used.length + 1)).map
        (fun i => base ++ "_" ++ natRepr (2 + i))).Nodup :=
      (List.nodup_range _).map hinj
    have hsub : ((List.range (used.length + 1)).map
        (fun i => base ++ "_" ++ natRepr (2 + i))) ⊆ used := by
      intro x hx
      obtain ⟨i, hi, rfl⟩ := List.mem_map.mp hx
      exact hall i (List.mem_range.mp hi)
    have hle := (List.subperm_of_subset hnd hsub).length_le
    simp only [List.length_map, List.length_range] at hle
    omega
  · rw [if_neg hb]
    exact hb

theorem alGet_alSet_self : ∀ (t : Table) (k : String) (v : TomlVal),
    alGet (alSet t k v) k = some v := by
  intro t k v
  induction t with
  | nil => simp [alSet, alGet]
  | cons p rest ih =>
    obtain ⟨k0, v0⟩ := p
    by_cases h : k0 = k
    · simp [alSet, alGet, h]
    · simp [alSet, alGet, h, ih]

theorem alGet_alSet_ne : ∀ (t : Table) (k k' : String) (v : TomlVal), k ≠ k' →
    alGet (alSet t k v) k' = alGet t k' := by
  intro t k k' v h
  induction t with
  | nil => simp [alSet, alGet, h]
  | cons p rest ih =>
    obtain ⟨k0, v0⟩ := p
    by_cases h0 : k0 = k
    · subst h0
      simp [alSet, alGet, h]
    · simp [alSet, alGet, h0, ih]

theorem alHasKey_alSet_self (t : Table) (k : String) (v : TomlVal) :
    alHasKey (alSet t k v) k = true := by
  simp [alHasKey, alGet_alSet_self]

theorem alHasKey_alSet_mono (t : Table) (k k' : String) (v : TomlVal)
    (h : alHasKey t k' = true) : alHasKey (alSet t k v) k' = true := by
  by_cases he : k = k'
  · subst he
    exact alHasKey_alSet_self t k v
  · simpa [alHasKey, alGet_alSet_ne t k k' v he] using h

theorem alGet_of_hasKey_false (t : Table) (k : String) (h : alHasKey t k = false) :
    alGet t k = none := by
  cases hg : alGet t k with
  | none => rfl
  | some v =>
    unfold alHasKey at h
    rw [hg] at h
    simp at h

theorem alSet_absent : ∀ (t : Table) (k : String) (v : TomlVal), alHasKey t k = false →
    alSet t k v = t ++ [(k, v)] := by
  intro t k v h
  induction t with
  | nil => rfl
  | cons p rest ih =>
    obtain ⟨k0, v0⟩ := p
    simp only [alHasKey, alGet] at h
    by_cases h0 : k0 = k
    · rw [if_pos h0] at h
      simp at h
    · rw [if_neg h0] at h
      simp [alSet, h0, ih h]

theorem mem_alSet_absent (t : Table) (k : String) (v : TomlVal)
    (h : alHasKey t k = false) (p : String × TomlVal) (hp : p ∈ t) : p ∈ alSet t k v := by
  rw [alSet_absent t k v h]
  exact List.mem_append_left _ hp

theorem alHasKey_mem_keys : ∀ (t : Table) (k : String),
    alHasKey t k = true ↔ k ∈ t.map Prod.fst := by
  intro t k
  induction t with
  | nil => simp [alHasKey, alGet]
  | cons p rest ih =>
    obtain ⟨k0, v0⟩ := p
    by_cases h : k0 = k
    · simp [alHasKey, alGet, h]
    · have hstep : alHasKey ((k0, v0) :: rest) k = alHasKey rest k := by
        simp [alHasKey, alGet, h]
      rw [hstep, ih]
      simp [Ne.symm h]

theorem asTable_ensureKey_self (t : Table) (k : String) :
    asTable (alGet (ensureKey t k) k) = asTable (alGet t k) := by
  unfold ensureKey
  by_cases h : alHasKey t k
  · simp [h]
  · simp only [Bool.not_eq_true] at h
    simp [h, alGet_alSet_self, alGet_of_hasKey_false t k h, asTable]

theorem alGet_ensureKey_ne (t : Table) (k k' : String) (h : k ≠ k') :
    alGet (ensureKey t k) k' = alGet t k' := by
  unfold ensureKey
  by_cases hk : alHasKey t k
  · simp [hk]
  · simp only [Bool.not_eq_true] at hk
    simp [hk, alGet_alSet_ne t k k' _ h]

theorem asStrList_map_vStr : ∀ xs : List String,
    asStrList (some (.vList (xs.map .vStr))) = xs := by
  intro xs
  induction xs with
  | nil => rfl
  | cons x rest ih =>
    simpa [asStrList, List.filterMap] using ih

theorem condSet_preserves (t : Table) (fld : String) (v : TomlVal)
    (p : String × TomlVal) (hp : p ∈ t) :
    p ∈ (if alHasKey t fld then t else alSet t fld v) := by
  by_cases h : alHasKey t fld
  · simpa [h] using hp
  · simp only [Bool.not_eq_true] at h
    simpa [h] using mem_alSet_absent t fld v h p hp

theorem condSet_hasKey_self (t : Table) (fld : String) (v : TomlVal) :
    alHasKey (if alHasKey t fld then t else alSet t fld v) fld = true := by
  by_cases h : alHasKey t fld
  · simp [h]
  · simp only [Bool.not_eq_true] at h
    simpa [h] using alHasKey_alSet_self t fld v

theorem condSet_hasKey_mono (t : Table) (fld k : String) (v : TomlVal)
    (h : alHasKey t k = true) :
    alHasKey (if alHasKey t fld then t else alSet t fld v) k = true := by
  by_cases hf : alHasKey t fld
  · simpa [hf] using h
  · simp only [Bool.not_eq_true] at hf
    simpa [hf] using alHasKey_alSet_mono t fld k v h

theorem merge_system_preserves (u : Bool) (n : String) (t : Table)
    (info : BuildLogInfo) (p : String × TomlVal) (hp : p ∈ t) :
    p ∈ (merge_system_paths u n t info).1 := by
  unfold merge_system_paths
  exact condSet_preserves _ _ _ p (condSet_preserves _ _ _ p hp)

theorem merge_system_haskeys (u : Bool) (n : String) (t : Table) (info : BuildLogInfo) :
    alHasKey (merge_system_paths u n t info).1 (sysField info) = true ∧
      alHasKey (merge_system_paths u n t info).1 (sysOtherField info) = true := by
  unfold merge_system_paths
  exact ⟨condSet_hasKey_mono _ _ _ _ (condSet_hasKey_self _ _ _),
    condSet_hasKey_self _ _ _⟩

theorem merge_system_added_zero (u : Bool) (n : String) (t : Table) (info : BuildLogInfo)
    (h1 : alHasKey t (sysField info) = true)
    (h2 : alHasKey t (sysOtherField info) = true) :
    (merge_system_paths u n t info).2.1 = 0 := by
  simp [merge_system_paths, h1, h2]

theorem normValsOf_append_vStr (n : String) (t : Table) (k s : String) :
    normValsOf n (t ++ [(k, .vStr s)]) =
      normValsOf n t ++ [normalize_path_for_comparison n s] := by
  simp [normValsOf, List.filterMap_append]

theorem merge_library_step_skip (u : Bool) (n : String) (st : LibMergeState) (p : String)
    (h : normalize_path_for_comparison n p ∈ st.normSet) :
    merge_library_step u n st p = { st with skipped := st.skipped + 1 } := by
  simp [merge_library_step, h]

theorem merge_library_step_add (u : Bool) (n : String) (st : LibMergeState) (p : String)
    (h : normalize_path_for_comparison n p ∉ st.normSet) :
    merge_library_step u n st p =
      { libs := alSet st.libs (make_unique_name (derive_library_name p) st.used)
          (.vStr (format_path u n p)),
        normSet := st.normSet ++ [normalize_path_for_comparison n p],
        used := st.used ++ [make_unique_name (derive_library_name p) st.used],
        added := st.added + 1,
        skipped := st.skipped } := by
  simp [merge_library_step, h]

theorem merge_library_fold_main (u : Bool) (n : String) (ps : List String)
    (hrt : ∀ p ∈ ps, normalize_path_for_comparison n (format_path u n p)
      = normalize_path_for_comparison n p) :
    ∀ st : LibMergeState,
      (∀ k, alHasKey st.libs k = true → k ∈ st.used) →
      (∀ x ∈ st.normSet, x ∈ normValsOf n st.libs) →
      (∀ q ∈ st.libs, q ∈ (ps.foldl (merge_library_step u n) st).libs) ∧
      (∀ k, alHasKey (ps.foldl (merge_library_step u n) st).libs k = true →
        k ∈ (ps.foldl (merge_library_step u n) st).used) ∧
      (∀ x ∈ st.normSet, x ∈ (ps.foldl (merge_library_step u n) st).normSet) ∧
      (∀ p ∈ ps, normalize_path_for_comparison n p ∈
        (ps.foldl (merge_library_step u n) st).normSet) ∧
      (∀ x ∈ (ps.foldl (merge_library_step u n) st).normSet,
        x ∈ normValsOf n (ps.foldl (merge_library_step u n) st).libs) := by
  induction ps with
  | nil =>
    intro st hkeys hcov
    exact ⟨fun q hq => hq, hkeys, fun x hx => hx, by simp, hcov⟩
  | cons p rest ih =>
    intro st hkeys hcov
    simp only [List.foldl_cons]
    have hrt' : ∀ q ∈ rest, normalize_path_for_comparison n (format_path u n q)
        = normalize_path_for_comparison n q :=
      fun q hq => hrt q (List.mem_cons_of_mem _ hq)
    by_cases hskip : normalize_path_for_comparison n p ∈ st.normSet
    · rw [merge_library_step_skip u n st p hskip]
      obtain ⟨ih1, ih2, ih3, ih4, ih5⟩ :=
        ih hrt' { st with skipped := st.skipped + 1 } hkeys hcov
      refine ⟨ih1, ih2, ih3, ?_, ih5⟩
      intro q hq
      rcases List.mem_cons.mp hq with rfl | hq'
      · exact ih3 _ hskip
      · exact ih4 q hq'
    · rw [merge_library_step_add u n st p hskip]
      have hfresh := make_unique_fresh (derive_library_name p) st.used
      have habs : alHasKey st.libs
          (make_unique_name (derive_library_name p) st.used) = false := by
        cases hh : alHasKey st.libs (make_unique_name (derive_library_name p) st.used) with
        | false => rfl
        | true => exact absurd (hkeys _ hh) hfresh
      have hset := alSet_absent st.libs _
        (.vStr (format_path u n p)) habs
      have hkeys' : ∀ k, alHasKey (alSet st.libs
          (make_unique_name (derive_library_name p) st.used)
          (.vStr (format_path u n p))) k = true →
          k ∈ st.used ++ [make_unique_name (derive_library_name p) st.used] := by
        intro k hk
        rw [hset, alHasKey_mem_keys] at hk
        simp only [List.map_append, List.mem_append, List.map_cons, List.map_nil,
          List.mem_cons, List.not_mem_nil, or_false] at hk
        rcases hk with hk | hk
        · exact List.mem_append_left _ (hkeys k ((alHasKey_mem_keys st.libs k).mpr hk))
        · exact List.mem_append_right _ (by simp [hk])
      have hcov' : ∀ x ∈ st.normSet ++ [normalize_path_for_comparison n p],
          x ∈ normValsOf n (alSet st.libs
            (make_unique_name (derive_library_name p) st.used)
            (.vStr (format_path u n p))) := by
        intro x hx
        rw [hset, normValsOf_append_vStr]
        rcases List.mem_append.mp hx with hx | hx
        · exact List.mem_append_left _ (hcov x hx)
        · simp only [List.mem_singleton] at hx
          subst hx
          refine List.mem_append_right _ ?_
          simp [hrt p (List.mem_cons_self _ _)]
      obtain ⟨ih1, ih2, ih3, ih4, ih5⟩ := ih hrt'
        { libs := alSet st.libs (make_unique_name (derive_library_name p) st.used)
            (.vStr (format_path u n p)),
          normSet := st.normSet ++ [normalize_path_for_comparison n p],
          used := st.used ++ [make_unique_name (derive_library_name p) st.used],
          added := st.added + 1,
          skipped := st.skipped } hkeys' hcov'
      refine ⟨?_, ih2, ?_, ?_, ih5⟩
      · intro q hq
        apply ih1
        show q ∈ alSet st.libs (make_unique_name (derive_library_name p) st.used)
          (.vStr (format_path u n p))
        rw [hset]
        exact List.mem_append_left _ hq
      · intro x hx
        apply ih3
        exact List.mem_append_left _ hx
      · intro q hq
        rcases List.mem_cons.mp hq with rfl | hq'
        · exact ih3 _ (List.mem_append_right _ (by simp))
        · exact ih4 q hq'

theorem merge_library_fold_added (u : Bool) (n : String) (ps : List String) :
    ∀ st : LibMergeState, (∀ p ∈ ps, normalize_path_for_comparison n p ∈ st.normSet) →
      (ps.foldl (merge_library_step u n) st).added = st.added := by
  induction ps with
  | nil => intro st _; rfl
  | cons p rest ih =>
    intro st hall
    simp only [List.foldl_cons]
    rw [merge_library_step_skip u n st p (hall p (List.mem_cons_self _ _))]
    exact ih _ (fun q hq => hall q (List.mem_cons_of_mem _ hq))

theorem merge_library_fold_pres (u : Bool) (n : String) (ps : List String) :
    ∀ st : LibMergeState,
      (∀ k, alHasKey st.libs k = true → k ∈ st.used) →
      (∀ q ∈ st.libs, q ∈ (ps.foldl (merge_library_step u n) st).libs) ∧
      (∀ k, alHasKey (ps.foldl (merge_library_step u n) st).libs k = true →
        k ∈ (ps.foldl (merge_library_step u n) st).used) := by
  induction ps with
  | nil => intro st hkeys; exact ⟨fun q hq => hq, hkeys⟩
  | cons p rest ih =>
    intro st hkeys
    simp only [List.foldl_cons]
    by_cases hskip : normalize_path_for_comparison n p ∈ st.normSet
    · rw [merge_library_step_skip u n st p hskip]
      exact ih { st with skipped := st.skipped + 1 } hkeys
    · rw [merge_library_step_add u n st p hskip]
      have hfresh := make_unique_fresh (derive_library_name p) st.used
      have habs : alHasKey st.libs
          (make_unique_name (derive_library_name p) st.used) = false := by
        cases hh : alHasKey st.libs (make_unique_name (derive_library_name p) st.used) with
        | false => rfl
        | true => exact absurd (hkeys _ hh) hfresh
      have hset := alSet_absent st.libs _ (.vStr (format_path u n p)) habs
      have hkeys' : ∀ k, alHasKey (alSet st.libs
          (make_unique_name (derive_library_name p) st.used)
          (.vStr (format_path u n p))) k = true →
          k ∈ st.used ++ [make_unique_name (derive_library_name p) st.used] := by
        intro k hk
        rw [hset, alHasKey_mem_keys] at hk
        simp only [List.map_append, List.mem_append, List.map_cons, List.map_nil,
          List.mem_cons, List.not_mem_nil, or_false] at hk
        rcases hk with hk | hk
        · exact List.mem_append_left _ (hkeys k ((alHasKey_mem_keys st.libs k).mpr hk))
        · exact List.mem_append_right _ (by simp [hk])
      obtain ⟨ih1, ih2⟩ := ih
        { libs := alSet st.libs (make_unique_name (derive_library_name p) st.used)
            (.vStr (format_path u n p)),
          normSet := st.normSet ++ [normalize_path_for_comparison n p],
          used := st.used ++ [make_unique_name (derive_library_name p) st.used],
          added := st.added + 1,
          skipped := st.skipped } hkeys'
      refine ⟨?_, ih2⟩
      intro q hq
      apply ih1
      show q ∈ alSet st.libs (make_unique_name (derive_library_name p) st.used)
        (.vStr (format_path u n p))
      rw [hset]
      exact List.mem_append_left _ hq

theorem merge_library_preserves (u : Bool) (n : String) (t : Table) (ps : List String)
    (p : String × TomlVal) (hp : p ∈ t) : p ∈ (merge_library_paths u n t ps).1 := by
  unfold merge_library_paths
  exact (merge_library_fold_pres u n ps _
    (fun k hk => (alHasKey_mem_keys t k).mp hk)).1 p hp

theorem merge_library_covers (u : Bool) (n : String) (t : Table) (ps : List String)
    (hrt : ∀ p ∈ ps, normalize_path_for_comparison n (format_path u n p)
      = normalize_path_for_comparison n p)
    (p : String) (hp : p ∈ ps) :
    normalize_path_for_comparison n p ∈ normValsOf n (merge_library_paths u n t ps).1 := by
  unfold merge_library_paths
  have h := merge_library_fold_main u n ps hrt
    { libs := t, normSet := normValsOf n t, used := t.map Prod.fst,
      added := 0, skipped := 0 }
    (fun k hk => (alHasKey_mem_keys t k).mp hk) (fun x hx => hx)
  exact h.2.2.2.2 _ (h.2.2.2.1 p hp)

theorem merge_library_added_zero (u : Bool) (n : String) (t : Table) (ps : List String)
    (h : ∀ p ∈ ps, normalize_path_for_comparison n p ∈ normValsOf n t) :
    (merge_library_paths u n t ps).2.1 = 0 := by
  unfold merge_library_paths
  exact merge_library_fold_added u n ps _ h

theorem merge_aliases_fold_pres (na : List (String × String)) :
    ∀ (acc : Table × Nat) (p : String × TomlVal), p ∈ acc.1 →
      p ∈ (na.foldl
        (fun (st : Table × Nat) pr =>
          if alHasKey st.1 pr.1 then st
          else (alSet st.1 pr.1 (.vStr pr.2), st.2 + 1)) acc).1 := by
  induction na with
  | nil => intro acc p hp; simpa using hp
  | cons a rest ih =>
    intro acc p hp
    simp only [List.foldl_cons]
    by_cases ha : alHasKey acc.1 a.1
    · simpa [ha] using ih acc p hp
    · simp only [Bool.not_eq_true] at ha
      simp only [ha, Bool.false_eq_true, if_false]
      exact ih _ p (mem_alSet_absent acc.1 a.1 (.vStr a.2) ha p hp)

theorem merge_aliases_preserves (t : Table) (na : List (String × String))
    (p : String × TomlVal) (hp : p ∈ t) : p ∈ (merge_aliases t na).1 := by
  unfold merge_aliases
  by_cases hne : na.isEmpty
  · simpa [hne] using hp
  · simp only [hne, Bool.false_eq_true, if_false]
    exact merge_aliases_fold_pres na (t, 0) p hp

theorem merge_namespaces_extends (t : Table) (ns : List String) :
    ∃ tail, asStrList (alGet (merge_namespaces t ns).1 "prefixes")
      = asStrList (alGet t "prefixes") ++ tail := by
  unfold merge_namespaces
  by_cases hne : ns.isEmpty
  · exact ⟨[], by simp [hne]⟩
  · simp only [hne, Bool.false_eq_true, if_false]
    have hfold : ∀ (l : List String) (acc : List String × List String × Nat),
        ∃ tail, (l.foldl
          (fun (st : List String × List String × Nat) ns =>
            if lowerStr ns ∈ st.2.1 then st
            else (st.1 ++ [ns], st.2.1 ++ [lowerStr ns], st.2.2 + 1)) acc).1
          = acc.1 ++ tail := by
      intro l
      induction l with
      | nil => exact fun acc => ⟨[], by simp⟩
      | cons x rest ih =>
        intro acc
        simp only [List.foldl_cons]
        by_cases hx : lowerStr x ∈ acc.2.1
        · simpa [hx] using ih acc
        · simp only [hx, Bool.false_eq_true, if_false]
          obtain ⟨tail, htail⟩ := ih (acc.1 ++ [x], acc.2.1 ++ [lowerStr x], acc.2.2 + 1)
          exact ⟨[x] ++ tail, by simpa [List.append_assoc] using htail⟩
    obtain ⟨tail, htail⟩ := hfold ns
      (asStrList (alGet t "prefixes"), (asStrList (alGet t "prefixes")).map lowerStr, 0)
    refine ⟨tail, ?_⟩
    rw [alGet_alSet_self]
    rw [show (asStrList (alGet t "prefixes"), (asStrList (alGet t "prefixes")).map lowerStr,
      0).1 = asStrList (alGet t "prefixes") from rfl] at htail
    rw [← htail, asStrList_map_vStr]

theorem alGet_condSet (c : Bool) (t : Table) (k : String) (v : TomlVal) (k' : String)
    (h : k ≠ k') :
    alGet (if c = true then alSet t k v else t) k' = alGet t k' := by
  cases c
  · rw [if_neg (by simp)]
  · rw [if_pos rfl]
    exact alGet_alSet_ne t k k' v h

theorem paths0_system (e : Table) :
    asTable (alGet (ensureKey (ensureKey
      (asTable (alGet (ensureKey e "paths") "paths")) "system") "libraries") "system")
      = systemOf e := by
  rw [alGet_ensureKey_ne _ _ _ (by decide), asTable_ensureKey_self, asTable_ensureKey_self]
  rfl

theorem paths0_libraries (e : Table) :
    asTable (alGet (ensureKey (ensureKey
      (asTable (alGet (ensureKey e "paths") "paths")) "system") "libraries") "libraries")
      = librariesOf e := by
  rw [asTable_ensureKey_self, alGet_ensureKey_ne _ _ _ (by decide), asTable_ensureKey_self]
  rfl

theorem comp0_namespaces (e : Table) :
    asTable (alGet (ensureKey (ensureKey (ensureKey
      (asTable (alGet (ensureKey (ensureKey e "paths") "compiler") "compiler"))
      "namespaces") "aliases") "flags") "namespaces")
      = namespacesOf e := by
  rw [alGet_ensureKey_ne _ _ _ (by decide), alGet_ensureKey_ne _ _ _ (by decide),
    asTable_ensureKey_self, asTable_ensureKey_self,
    alGet_ensureKey_ne _ _ _ (by decide)]
  rfl

theorem comp0_aliases (e : Table) :
    asTable (alGet (ensureKey (ensureKey (ensureKey
      (asTable (alGet (ensureKey (ensureKey e "paths") "compiler") "compiler"))
      "namespaces") "aliases") "flags") "aliases")
      = aliasesOf e := by
  rw [alGet_ensureKey_ne _ _ _ (by decide), asTable_ensureKey_self,
    alGet_ensureKey_ne _ _ _ (by decide), asTable_ensureKey_self,
    alGet_ensureKey_ne _ _ _ (by decide)]
  rfl

theorem merge_configs_system (u : Bool) (n : String) (e : Table) (info : BuildLogInfo) :
    systemOf (merge_configs u n e info).1
      = (merge_system_paths u n (systemOf e) info).1 := by
  unfold systemOf
  cases hsdk : (info.sdk_sysroot.isSome || !info.sdk_libpaths.isEmpty) with
  | true =>
    simp only [merge_configs, hsdk, if_true]
    rw [alGet_alSet_ne _ _ _ _ (by decide), alGet_condSet _ _ _ _ _ (by decide),
      alGet_alSet_ne _ _ _ _ (by decide), alGet_alSet_self]
    show asTable (alGet (alSet (alSet _ "system" _) "libraries" _) "system") = _
    rw [alGet_alSet_ne _ _ _ _ (by decide), alGet_alSet_self]
    show (merge_system_paths u n (asTable (alGet (ensureKey (ensureKey
      (asTable (alGet (ensureKey e "paths") "paths")) "system") "libraries") "system"))
      info).1 = _
    rw [paths0_system]
    rfl
  | false =>
    simp only [merge_configs, hsdk, Bool.false_eq_true, if_false]
    rw [alGet_alSet_ne _ _ _ _ (by decide), alGet_alSet_self]
    show asTable (alGet (alSet (alSet _ "system" _) "libraries" _) "system") = _
    rw [alGet_alSet_ne _ _ _ _ (by decide), alGet_alSet_self]
    show (merge_system_paths u n (asTable (alGet (ensureKey (ensureKey
      (asTable (alGet (ensureKey e "paths") "paths")) "system") "libraries") "system"))
      info).1 = _
    rw [paths0_system]
    rfl

theorem merge_configs_libraries (u : Bool) (n : String) (e : Table) (info : BuildLogInfo) :
    librariesOf (merge_configs u n e info).1
      = (merge_library_paths u n (librariesOf e) (library_paths_of info)).1 := by
  unfold librariesOf
  cases hsdk : (info.sdk_sysroot.isSome || !info.sdk_libpaths.isEmpty) with
  | true =>
    simp only [merge_configs, hsdk, if_true]
    rw [alGet_alSet_ne _ _ _ _ (by decide), alGet_condSet _ _ _ _ _ (by decide),
      alGet_alSet_ne _ _ _ _ (by decide), alGet_alSet_self]
    show asTable (alGet (alSet (alSet _ "system" _) "libraries" _) "libraries") = _
    rw [alGet_alSet_self]
    show (merge_library_paths u n (asTable (alGet (ensureKey (ensureKey
      (asTable (alGet (ensureKey e "paths") "paths")) "system") "libraries") "libraries"))
      (library_paths_of info)).1 = _
    rw [paths0_libraries]
    rfl
  | false =>
    simp only [merge_configs, hsdk, Bool.false_eq_true, if_false]
    rw [alGet_alSet_ne _ _ _ _ (by decide), alGet_alSet_self]
    show asTable (alGet (alSet (alSet _ "system" _) "libraries" _) "libraries") = _
    rw [alGet_alSet_self]
    show (merge_library_paths u n (asTable (alGet (ensureKey (ensureKey
      (asTable (alGet (ensureKey e "paths") "paths")) "system") "libraries") "libraries"))
      (library_paths_of info)).1 = _
    rw [paths0_libraries]
    rfl

theorem merge_configs_aliases (u : Bool) (n : String) (e : Table) (info : BuildLogInfo) :
    aliasesOf (merge_configs u n e info).1
      = (merge_aliases (aliasesOf e) info.unit_aliases).1 := by
  unfold aliasesOf
  cases hsdk : (info.sdk_sysroot.isSome || !info.sdk_libpaths.isEmpty) with
  | true =>
    simp only [merge_configs, hsdk, if_true]
    rw [alGet_alSet_ne _ _ _ _ (by decide), alGet_condSet _ _ _ _ _ (by decide),
      alGet_alSet_self]
    show asTable (alGet (alSet (alSet (alSet _ "namespaces" _) "aliases" _) "flags" _)
      "aliases") = _
    rw [alGet_alSet_ne _ _ _ _ (by decide), alGet_alSet_self]
    show (merge_aliases (asTable (alGet (ensureKey (ensureKey (ensureKey
      (asTable (alGet (ensureKey (ensureKey e "paths") "compiler") "compiler"))
      "namespaces") "aliases") "flags") "aliases")) info.unit_aliases).1 = _
    rw [comp0_aliases]
    rfl
  | false =>
    simp only [merge_configs, hsdk, Bool.false_eq_true, if_false]
    rw [alGet_alSet_self]
    show asTable (alGet (alSet (alSet (alSet _ "namespaces" _) "aliases" _) "flags" _)
      "aliases") = _
    rw [alGet_alSet_ne _ _ _ _ (by decide), alGet_alSet_self]
    show (merge_aliases (asTable (alGet (ensureKey (ensureKey (ensureKey
      (asTable (alGet (ensureKey (ensureKey e "paths") "compiler") "compiler"))
      "namespaces") "aliases") "flags") "aliases")) info.unit_aliases).1 = _
    rw [comp0_aliases]
    rfl

theorem merge_configs_namespaces (u : Bool) (n : String) (e : Table) (info : BuildLogInfo) :
    namespacesOf (merge_configs u n e info).1
      = (merge_namespaces (namespacesOf e) info.namespace_prefixes).1 := by
  unfold namespacesOf
  cases hsdk : (info.sdk_sysroot.isSome || !info.sdk_libpaths.isEmpty) with
  | true =>
    simp only [merge_configs, hsdk, if_true]
    rw [alGet_alSet_ne _ _ _ _ (by decide), alGet_condSet _ _ _ _ _ (by decide),
      alGet_alSet_self]
    show asTable (alGet (alSet (alSet (alSet _ "namespaces" _) "aliases" _) "flags" _)
      "namespaces") = _
    rw [alGet_alSet_ne _ _ _ _ (by decide), alGet_alSet_ne _ _ _ _ (by decide),
      alGet_alSet_self]
    show (merge_namespaces (asTable (alGet (ensureKey (ensureKey (ensureKey
      (asTable (alGet (ensureKey (ensureKey e "paths") "compiler") "compiler"))
      "namespaces") "aliases") "flags") "namespaces")) info.namespace_prefixes).1 = _
    rw [comp0_namespaces]
    rfl
  | false =>
    simp only [merge_configs, hsdk, Bool.false_eq_true, if_false]
    rw [alGet_alSet_self]
    show asTable (alGet (alSet (alSet (alSet _ "namespaces" _) "aliases" _) "flags" _)
      "namespaces") = _
    rw [alGet_alSet_ne _ _ _ _ (by decide), alGet_alSet_ne _ _ _ _ (by decide),
      alGet_alSet_self]
    show (merge_namespaces (asTable (alGet (ensureKey (ensureKey (ensureKey
      (asTable (alGet (ensureKey (ensureKey e "paths") "compiler") "compiler"))
      "namespaces") "aliases") "flags") "namespaces")) info.namespace_prefixes).1 = _
    rw [comp0_namespaces]
    rfl

theorem merge_configs_added (u : Bool) (n : String) (e : Table) (info : BuildLogInfo) :
    (merge_configs u n e info).2.paths_added
      = (merge_system_paths u n (systemOf e) info).2.1
        + (merge_library_paths u n (librariesOf e) (library_paths_of info)).2.1 := by
  cases hsdk : (info.sdk_sysroot.isSome || !info.sdk_libpaths.isEmpty) with
  | true =>
    simp only [merge_configs, hsdk, if_true]
    rw [paths0_system, paths0_libraries]
  | false =>
    simp only [merge_configs, hsdk, Bool.false_eq_true, if_false]
    rw [paths0_system, paths0_libraries]

set_option maxRecDepth 40000 in
/-- C3 counterexample: the extend operation does delete content — the
input document's `custom` section is present in the existing TOML, yet
the written output does not even contain the string `custom`, because
`_generate_toml` serialises only its fixed set of known sections. -/
theorem c3_counterexample :
    alHasKey cfgC3 "custom" = true ∧
      containsSub (extend_output false "" cfgC3 infoC3) "custom" = false :=
  ⟨rfl, rfl⟩

/-- C3 (amended): the merge step never deletes existing content — every
key/value pair of the existing `[paths.system]`, `[paths.libraries]` and
`[compiler.aliases]` tables is still present after `_merge_configs`, and
the existing `compiler.namespaces.prefixes` list is only extended at its
end.  The deletion of the original claim happens in the serialisation
step: `_generate_toml` writes only its fixed known sections, dropping
unknown sections of the input document (see the counterexample). -/
theorem c3_amended (u : Bool) (n : String) (e : Table) (info : BuildLogInfo) :
    (∀ p ∈ systemOf e, p ∈ systemOf (merge_configs u n e info).1) ∧
    (∀ p ∈ librariesOf e, p ∈ librariesOf (merge_configs u n e info).1) ∧
    (∀ p ∈ aliasesOf e, p ∈ aliasesOf (merge_configs u n e info).1) ∧
    (∃ tail, prefixesOf (merge_configs u n e info).1 = prefixesOf e ++ tail) := by
  refine ⟨?_, ?_, ?_, ?_⟩
  · intro p hp
    rw [merge_configs_system]
    exact merge_system_preserves u n (systemOf e) info p hp
  · intro p hp
    rw [merge_configs_libraries]
    exact merge_library_preserves u n (librariesOf e) (library_paths_of info) p hp
  · intro p hp
    rw [merge_configs_aliases]
    exact merge_aliases_preserves (aliasesOf e) info.unit_aliases p hp
  · unfold prefixesOf
    rw [merge_configs_namespaces]
    exact merge_namespaces_extends (namespacesOf e) info.namespace_prefixes

theorem c3_amended_witness :
    ("lib_old", TomlVal.vStr "c:/old")
        ∈ systemOf (merge_configs false "" cfgC3w infoC3).1 ∧
      ("mylib", TomlVal.vStr "c:/3rd/mylib")
        ∈ librariesOf (merge_configs false "" cfgC3w infoC3).1 ∧
      ("WinTypes", TomlVal.vStr "Windows")
        ∈ aliasesOf (merge_configs false "" cfgC3w infoC3).1 ∧
      ∃ tail, prefixesOf (merge_configs false "" cfgC3w infoC3).1
        = prefixesOf cfgC3w ++ tail :=
  ⟨(c3_amended false "" cfgC3w infoC3).1 _ (List.mem_singleton.mpr rfl),
   (c3_amended false "" cfgC3w infoC3).2.1 _ (List.mem_singleton.mpr rfl),
   (c3_amended false "" cfgC3w infoC3).2.2.1 _ (List.mem_singleton.mpr rfl),
   (c3_amended false "" cfgC3w infoC3).2.2.2⟩

/-- C6 counterexample: re-extending with the same build log is not always
idempotent on `paths_added` — a search path carrying the `½S` corruption
is stored in repaired, reformatted form, whose normal form differs from
the raw path's, so the second pass adds it again. -/
theorem c6_counterexample :
    (merge_configs false "" (merge_configs false "" [] infoC6).1 infoC6).2.paths_added
      = 1 := rfl

/-- C6 (amended): extending twice with the same build log reports
`paths_added = 0` on the second pass provided each third-party library
path of the log is format-stable: formatting it with `_format_path` does
not change its `_normalize_path_for_comparison` normal form.  (System
fields need no proviso — both configuration keys exist after the first
pass; the `½S`-corrupted paths of the counterexample are exactly the
non-format-stable ones.) -/
theorem c6_amended (u : Bool) (n : String) (e : Table) (info : BuildLogInfo)
    (hrt : ∀ p ∈ library_paths_of info,
      normalize_path_for_comparison n (format_path u n p)
        = normalize_path_for_comparison n p) :
    (merge_configs u n (merge_configs u n e info).1 info).2.paths_added = 0 := by
  have hsys := merge_system_added_zero u n
    (merge_system_paths u n (systemOf e) info).1 info
    (merge_system_haskeys u n (systemOf e) info).1
    (merge_system_haskeys u n (systemOf e) info).2
  have hlib := merge_library_added_zero u n
    (merge_library_paths u n (librariesOf e) (library_paths_of info)).1
    (library_paths_of info)
    (fun p hp => merge_library_covers u n (librariesOf e) (library_paths_of info) hrt p hp)
  rw [merge_configs_added, merge_configs_system, merge_configs_libraries, hsys, hlib]

theorem c6_amended_witness :
    (merge_configs false "" (merge_configs false "" [] infoC3).1 infoC3).2.paths_added
      = 0 :=
  c6_amended false "" [] infoC3 (by decide)

end ConfigExtender


end DelphiBuild
